import Mathlib

/-!
Shallow embedding of the grus task-manager core (src/store.rs, src/node.rs,
src/flattree.rs, src/actions.rs, src/parser.rs) and proofs about the claims
of the specification.

Modelling conventions:
* Machine integers (`u64`, `usize`) are modelled as `Nat`; none of the
  verified operations can overflow a `u64` in any reachable scenario, and
  no wrap-around arithmetic occurs in the embedded code.
* The sanakirja B-trees are modelled as association lists.  `btree::put`
  inserts an entry, `btree::del` with a value removes the first exactly
  matching entry, `btree::del` without a value removes the first entry with
  the given key, and `btree::get` looks an entry up.  The embedded code
  only ever queries keys (or key/`pid` pairs for `RLINKS`) that the write
  discipline keeps unique, so the list order never influences a lookup
  that the source performs on a well-formed database.
* Fallible Rust code (`Result`) is embedded in `Option`; `none` stands for
  an `Err` return (the "invalid data" corruption error) or for fuel
  exhaustion of a recursion that Rust runs unboundedly.
* Node payloads (`&[u8]`) and session values are opaque to store.rs, so the
  store is parametrised by a payload type `P` and a session type `S`.
-/

/-- `RTriple` from src/store.rs: a reverse-link entry `{pid, next, prev}`. -/
structure RTriple where
  pid : Nat
  next : Nat
  prev : Nat
deriving DecidableEq, Repr

/-- The six logical indexes of the store (src/store.rs):
`id` is ID_SEQ, `links` maps a parent to the head of its sibling DLL,
`rlinks` maps a child to its reverse-link triples, `nodes` holds payloads,
`sessions`/`rsessions` hold the session indexes. -/
structure Store (P S : Type) where
  id : Nat
  links : List (Nat × Nat)
  rlinks : List (Nat × RTriple)
  nodes : List (Nat × P)
  sessions : List (Nat × S)
  rsessions : List (S × Nat)
deriving DecidableEq

/-- `Store::create_base` seeding on a fresh environment: empty B-trees,
root payload under id 0, ID_SEQ = 1. -/
def createBase {P S : Type} (rootData : P) : Store P S :=
  { id := 1, links := [], rlinks := [], nodes := [(0, rootData)],
    sessions := [], rsessions := [] }

/-- Lookup in the LINKS index (`StoreRw::get_child`). -/
def linksLookup (L : List (Nat × Nat)) (key : Nat) : Option Nat :=
  (L.find? (fun e => decide (e.1 = key))).map (fun e => e.2)

/-- Lookup in the RLINKS index (`StoreRw::get_rt`): the triple of child
`id` under parent `pid`, if any. -/
def rtLookup (R : List (Nat × RTriple)) (id pid : Nat) : Option RTriple :=
  (R.find? (fun e => decide (e.1 = id ∧ e.2.pid = pid))).map (fun e => e.2)

/-- `btree::del(links, &key, None)`: drop the first entry with the key. -/
def delLinksKey (L : List (Nat × Nat)) (key : Nat) : List (Nat × Nat) :=
  L.eraseP (fun e => decide (e.1 = key))

/-- `btree::del(links, &key, Some(&v))`: drop the exact entry. -/
def delLinksKV (L : List (Nat × Nat)) (key v : Nat) : List (Nat × Nat) :=
  L.eraseP (fun e => decide (e.1 = key ∧ e.2 = v))

/-- `btree::del(rlinks, &id, Some(&rt))`: drop the exact entry. -/
def delRlink (R : List (Nat × RTriple)) (id : Nat) (rt : RTriple) :
    List (Nat × RTriple) :=
  R.eraseP (fun e => decide (e.1 = id ∧ e.2 = rt))

variable {P S : Type}

/-- `StoreRw::get_child`. -/
def getChild (st : Store P S) (id : Nat) : Option Nat :=
  linksLookup st.links id

/-- `StoreRw::get_rt`. -/
def getRt (st : Store P S) (id pid : Nat) : Option RTriple :=
  rtLookup st.rlinks id pid

/-- `StoreRw::read`: the NODES payload of `id`. -/
def readNode (st : Store P S) (id : Nat) : Option P :=
  (st.nodes.find? (fun e => decide (e.1 = id))).map (fun e => e.2)

/-- `StoreRw::read_session`: the first SESSIONS entry of `id`. -/
def readSession (st : Store P S) (id : Nat) : Option S :=
  (st.sessions.find? (fun e => decide (e.1 = id))).map (fun e => e.2)

/-- `delete_helper`'s check `btree::get(&self.rlinks, &id, None)` followed by
`eid == id`: does any RLINKS entry with key `id` remain? -/
def hasAnyRt (st : Store P S) (id : Nat) : Bool :=
  st.rlinks.any (fun e => e.1 == id)

/-- `StoreWriter::modify_rt`: read the triple of `(id, pid)`, delete the old
exact entry, mutate, re-insert. -/
def modifyRt (st : Store P S) (id pid : Nat) (f : RTriple → RTriple) :
    Option (Store P S) :=
  match getRt st id pid with
  | none => none
  | some rt =>
      some { st with rlinks := (id, f rt) :: delRlink st.rlinks id rt }

/-- `StoreWriter::add_child`. -/
def addChild (st : Store P S) (pid : Nat) (data : P) :
    Option (Nat × Store P S) :=
  let next := (getChild st pid).getD 0
  let id := st.id
  let st1 : Store P S :=
    { st with links := (pid, id) :: delLinksKey st.links pid }
  let st2 : Store P S :=
    { st1 with rlinks := (id, ⟨pid, next, 0⟩) :: st1.rlinks }
  match (if next > 0 then modifyRt st2 next pid (fun rt => { rt with prev := id })
         else some st2) with
  | none => none
  | some st3 =>
      some (id, { st3 with nodes := (id, data) :: st3.nodes, id := st3.id + 1 })

/-- `StoreWriter::add_session`. -/
def addSession (st : Store P S) (id : Nat) (s : S) : Store P S :=
  { st with sessions := (id, s) :: st.sessions,
            rsessions := (s, id) :: st.rsessions }

/-- `StoreWriter::modify`: delete the NODES entry, then put the new payload. -/
def modifyNode (st : Store P S) (id : Nat) (data : P) : Store P S :=
  { st with nodes := (id, data) :: st.nodes.eraseP (fun e => decide (e.1 = id)) }

/-- A pending call of the mutually recursive delete procedures of
src/store.rs: `delete(pid, id)`, `delete_helper(pid, id)`, or the
`while let Some(child_id) = child_ids.next(self)?` loop of `delete_helper`
positioned at sibling `cur`. -/
inductive DelOp where
  | del (pid id : Nat)
  | helper (pid id : Nat)
  | loop (pid cur : Nat)

/-- The delete procedures of src/store.rs (`delete`, `delete_helper` and
the latter's child loop), written as one fuelled interpreter so that the
recursion is structural.  `none` models an `Err` return or fuel
exhaustion. -/
def deleteGo : Nat → Store P S → DelOp → Option (Store P S)
  | 0, _, _ => none
  | fuel + 1, st, DelOp.del pid id =>
      -- `StoreWriter::delete`: unlink `(pid, id)` from the sibling DLL,
      -- then run the reference-counting helper.
      let st0 : Store P S := { st with links := delLinksKV st.links pid id }
      match getRt st0 id pid with
      | none => none
      | some rt =>
          match (if rt.prev > 0 then
                   modifyRt st0 rt.prev pid (fun prt => { prt with next := rt.next })
                 else if rt.next > 0 then
                   some { st0 with links := (pid, rt.next) :: st0.links }
                 else some st0) with
          | none => none
          | some st1 =>
              match (if rt.next > 0 then
                       modifyRt st1 rt.next pid (fun nrt => { nrt with prev := rt.prev })
                     else some st1) with
              | none => none
              | some st2 => deleteGo fuel st2 (DelOp.helper pid id)
  | fuel + 1, st, DelOp.helper pid id =>
      -- `StoreWriter::delete_helper`: remove the `(id, pid)` reverse link;
      -- if any other reverse link remains the node survives, otherwise
      -- erase its payload and cascade into its children.
      match getRt st id pid with
      | none => none
      | some rt =>
          let st1 : Store P S := { st with rlinks := delRlink st.rlinks id rt }
          if hasAnyRt st1 id then some st1
          else
            let st2 : Store P S :=
              { st1 with nodes := st1.nodes.eraseP (fun e => decide (e.1 = id)) }
            let first := (getChild st2 id).getD 0
            if first = 0 then some st2
            else
              match getRt st2 first id with
              | none => none
              | some frt =>
                  let st3 : Store P S :=
                    { st2 with links := delLinksKV st2.links id first }
                  match deleteGo fuel st3 (DelOp.del id first) with
                  | none => none
                  | some st4 => deleteGo fuel st4 (DelOp.loop id frt.next)
  | fuel + 1, st, DelOp.loop pid cur =>
      -- the helper's loop: advance through the (possibly already mutated)
      -- sibling chain, deleting each child.
      if cur = 0 then some st
      else
        match getRt st cur pid with
        | none => none
        | some rt =>
            match deleteGo fuel st (DelOp.del pid cur) with
            | none => none
            | some st1 => deleteGo fuel st1 (DelOp.loop pid rt.next)

/-- `StoreWriter::delete`. -/
def delete (fuel : Nat) (st : Store P S) (pid id : Nat) :
    Option (Store P S) :=
  deleteGo fuel st (DelOp.del pid id)

/-- `StoreWriter::delete_helper`. -/
def deleteHelper (fuel : Nat) (st : Store P S) (pid id : Nat) :
    Option (Store P S) :=
  deleteGo fuel st (DelOp.helper pid id)

/-- A pending call of `is_descendent_of` or of its `for child_id in
self.child_ids(pred)?` loop positioned at sibling `cur`. -/
inductive DescOp where
  | desc (subj pred : Nat)
  | dloop (subj pred cur : Nat)

/-- `StoreWriter::is_descendent_of` and its child loop, written as one
fuelled interpreter so that the recursion is structural. -/
def isDescGo : Nat → Store P S → DescOp → Option Bool
  | 0, _, _ => none
  | fuel + 1, st, DescOp.desc subj pred =>
      -- is `subj` reachable from `pred` via forward child links
      -- (reflexively)?
      if subj = pred then some true
      else isDescGo fuel st (DescOp.dloop subj pred ((getChild st pred).getD 0))
  | fuel + 1, st, DescOp.dloop subj pred cur =>
      if cur = 0 then some false
      else
        match getRt st cur pred with
        | none => none
        | some rt =>
            match isDescGo fuel st (DescOp.desc subj cur) with
            | none => none
            | some true => some true
            | some false => isDescGo fuel st (DescOp.dloop subj pred rt.next)

/-- `StoreWriter::is_descendent_of`. -/
def isDesc (fuel : Nat) (st : Store P S) (subj pred : Nat) : Option Bool :=
  isDescGo fuel st (DescOp.desc subj pred)

/-- `StoreWriter::share`: add `dest` as an extra parent of `src`, refusing
when `dest` is reachable from `src` or `dest` is already a parent of `src`. -/
def share (fuel : Nat) (st : Store P S) (src dest : Nat) :
    Option (Bool × Store P S) :=
  match isDesc fuel st dest src with
  | none => none
  | some true => some (false, st)
  | some false =>
      if (getRt st src dest).isSome then some (false, st)
      else
        let next := (getChild st dest).getD 0
        let st1 : Store P S :=
          { st with links := (dest, src) :: delLinksKey st.links dest }
        let st2 : Store P S :=
          { st1 with rlinks := (src, ⟨dest, next, 0⟩) :: st1.rlinks }
        match (if next > 0 then
                 modifyRt st2 next dest (fun rt => { rt with prev := src })
               else some st2) with
        | none => none
        | some st3 => some (true, st3)

/-- `StoreWriter::cut`: `share`, then unlink `(src_pid, src)` from the DLL.
Note that, unlike `delete`, the source does not re-point `LINKS[src_pid]`
when `src` was the DLL head. -/
def cut (fuel : Nat) (st : Store P S) (srcPid src dest : Nat) :
    Option (Bool × Store P S) :=
  match share fuel st src dest with
  | none => none
  | some (false, st0) => some (false, st0)
  | some (true, st0) =>
      let st1 : Store P S := { st0 with links := delLinksKV st0.links srcPid src }
      match getRt st1 src srcPid with
      | none => none
      | some rt =>
          match (if rt.prev > 0 then
                   modifyRt st1 rt.prev srcPid (fun prt => { prt with next := rt.next })
                 else some st1) with
          | none => none
          | some st2 =>
              match (if rt.next > 0 then
                       modifyRt st2 rt.next srcPid (fun nrt => { nrt with prev := rt.prev })
                     else some st2) with
              | none => none
              | some st3 =>
                  some (true, { st3 with rlinks := delRlink st3.rlinks src rt })

/-- `StoreWriter::move_up`: swap `id` with its DLL predecessor. -/
def moveUp (st : Store P S) (pid id : Nat) : Option (Store P S) :=
  match getRt st id pid with
  | none => none
  | some rt =>
      if rt.prev > 0 then
        match getRt st rt.prev pid with
        | none => none
        | some prt =>
            match modifyRt st id pid
                (fun crt => { crt with next := rt.prev, prev := prt.prev }) with
            | none => none
            | some st1 =>
                match (if rt.next > 0 then
                         modifyRt st1 rt.next pid (fun nrt => { nrt with prev := rt.prev })
                       else some st1) with
                | none => none
                | some st2 =>
                    match modifyRt st2 rt.prev pid
                        (fun prt => { prt with next := rt.next, prev := id }) with
                    | none => none
                    | some st3 =>
                        if prt.prev > 0 then
                          modifyRt st3 prt.prev pid (fun pprt => { pprt with next := id })
                        else
                          some { st3 with
                                 links := (pid, id) :: delLinksKey st3.links pid }
      else some st

/-- `StoreWriter::move_down`: swap `id` with its DLL successor. -/
def moveDown (st : Store P S) (pid id : Nat) : Option (Store P S) :=
  match getRt st id pid with
  | none => none
  | some rt =>
      if rt.next > 0 then
        match getRt st rt.next pid with
        | none => none
        | some nrt =>
            match modifyRt st id pid
                (fun crt => { crt with prev := rt.next, next := nrt.next }) with
            | none => none
            | some st1 =>
                match (if rt.prev > 0 then
                         modifyRt st1 rt.prev pid (fun prt => { prt with next := rt.next })
                       else
                         some { st1 with
                                links := (pid, rt.next) :: delLinksKey st1.links pid }) with
                | none => none
                | some st2 =>
                    match modifyRt st2 rt.next pid
                        (fun nrt => { nrt with prev := rt.prev, next := id }) with
                    | none => none
                    | some st3 =>
                        if nrt.next > 0 then
                          modifyRt st3 nrt.next pid (fun nnrt => { nnrt with prev := id })
                        else some st3
      else some st

/-- The `ChildIds` iteration (`ChildIds::next`) starting at sibling `cur`
under parent `pid`: follow `next` pointers until 0. -/
def walkFrom : Nat → Store P S → Nat → Nat → Option (List Nat)
  | 0, _, _, _ => none
  | fuel + 1, st, pid, cur =>
      if cur = 0 then some []
      else
        match getRt st cur pid with
        | none => none
        | some rt =>
            match walkFrom fuel st pid rt.next with
            | none => none
            | some rest => some (cur :: rest)

/-- `StoreRw::child_ids`: walk the sibling DLL of `id` from the LINKS head. -/
def childIds (fuel : Nat) (st : Store P S) (id : Nat) : Option (List Nat) :=
  walkFrom fuel st id ((getChild st id).getD 0)

/-- `StoreRw::children`: the `(id, payload)` pairs of the sibling walk. -/
def childrenL (fuel : Nat) (st : Store P S) (id : Nat) :
    Option (List (Nat × P)) :=
  match childIds fuel st id with
  | none => none
  | some ids =>
      ids.mapM (fun cid =>
        match readNode st cid with
        | none => none
        | some d => some (cid, d))

/-!  Text wrapping (src/node.rs, `wrap_text`).  Strings are embedded as
`List Char`; the returned split indices are UTF-8 byte offsets, as in the
source (`char_indices` yields byte positions). -/

/-- The UTF-8 byte width of a character. -/
def charBytes (c : Char) : Nat :=
  if c.toNat < 128 then 1
  else if c.toNat < 2048 then 2
  else if c.toNat < 65536 then 3
  else 4

/-- The UTF-8 byte length of a string (`str::len`). -/
def utf8Length (cs : List Char) : Nat :=
  (cs.map charBytes).sum

/-- `text.char_indices().chain([(text.len(), ' ')]).enumerate()`: the list of
`(j, pos, ch)` with `j` the running character count and `pos` the byte
offset, followed by the sentinel space at the byte length. -/
def enumChars (cs : List Char) (j pos : Nat) : List (Nat × Nat × Char) :=
  match cs with
  | [] => [(j, pos, ' ')]
  | c :: rest => (j, pos, c) :: enumChars rest (j + 1) (pos + charBytes c)

/-- The mutable locals of `wrap_text`'s loop. -/
structure WrapSt where
  splits : List Nat
  i : Nat
  beg : Nat
  altBeg : Nat
  inAWord : Bool
  longWord : Bool
  d : Nat
deriving DecidableEq

/-- One iteration of `wrap_text`'s character loop. -/
def wrapStep (w : Nat) (st : WrapSt) (j pos : Nat) (ch : Char) : WrapSt :=
  let diff := (j + st.d) / w - (st.i + st.d) / w
  if ch = ' ' then
    if st.inAWord then
      let st1 :=
        if j - st.i = w ∧ st.longWord = false then
          let stA :=
            if st.splits.getLast? = some st.i then st
            else { st with splits := st.splits ++ [st.i] }
          { stA with d := stA.d + (w - (st.i + stA.d) % w) }
        else st
      let st2 :=
        if (j + st1.d) % w = 0 then
          { st1 with splits := st1.splits ++ [pos], i := j, beg := pos }
        else if 0 < diff then
          if st1.longWord = false then
            { st1 with splits := st1.splits ++ [st1.beg],
                       d := st1.d + (w - (st1.i + st1.d) % w) }
          else { st1 with splits := st1.splits ++ [st1.altBeg] }
        else st1
      { st2 with inAWord := false, longWord := false }
    else
      if (j + st.d) % w = 0 then
        { st with splits := st.splits ++ [pos], i := j, beg := pos }
      else st
  else
    if st.inAWord = false then
      let stA :=
        if (j + st.d) % w = 0 then { st with splits := st.splits ++ [pos] }
        else st
      { stA with i := j, beg := pos, inAWord := true }
    else
      let stA :=
        if (j + st.d) % w = 0 then { st with altBeg := pos } else st
      if j - st.i = w then
        { stA with splits := stA.splits ++ [stA.altBeg], i := j, beg := pos,
                   altBeg := pos, longWord := true }
      else stA

/-- The character loop of `wrap_text`. -/
def wrapGo (w : Nat) : List (Nat × Nat × Char) → WrapSt → WrapSt
  | [], st => st
  | (j, pos, ch) :: rest, st => wrapGo w rest (wrapStep w st j pos ch)

/-- `wrap_text` from src/node.rs. -/
def wrapText (cs : List Char) (w : Nat) : List Nat :=
  if w = 0 then [0, 0]
  else
    let blen := utf8Length cs
    let st := wrapGo w (enumChars cs 0 0) ⟨[], 0, 0, 0, false, false, 0⟩
    if 0 < blen ∧ st.splits.getLast? ≠ some blen then st.splits ++ [blen]
    else st.splits

/-!  Flat-tree builder (src/flattree.rs) and its driver `build_flattree`
(src/actions.rs).  The payloads stored in NODES are decoded to a
`NodeData` by an abstract decoder standing for `bincode::deserialize`;
the repository's `Node` struct is embedded with the fields the builder
and the driver use. -/

/-- The decoded node payload (`NodeData`); only the name matters to the
viewport builder. -/
structure NodeData where
  name : List Char
deriving DecidableEq

/-- `Priority` (src/node.rs): a determinant / total pair. -/
structure Priority where
  det : Nat
  total : Nat
deriving DecidableEq

/-- `Priority::default()`. -/
def Priority.dflt : Priority := ⟨0, 1⟩

/-- The viewport `Node` (src/actions.rs construction): id, parent id,
depth, decoded payload, first session, priority and wrap splits. -/
structure NodeF (S : Type) where
  id : Nat
  pid : Nat
  depth : Nat
  data : NodeData
  session : Option S
  priority : Priority
  splits : List Nat
deriving DecidableEq

/-- `FNode`: an accepted node with its lexicographic path key. -/
structure FNodeB (S : Type) where
  node : NodeF S
  path : List Nat
deriving DecidableEq

/-- `FChildIter`: the not-yet-consumed children of accepted node `last`. -/
structure FChildIter (S : Type) where
  iter : List (NodeF S)
  last : Nat
deriving DecidableEq

/-- `FlatTreeBuilder` (src/flattree.rs). -/
structure FlatTreeBuilder (S : Type) where
  height : Nat
  fnodes : List (FNodeB S)
  queue : List (FChildIter S)
  start : Nat
  filled : Nat
deriving DecidableEq

/-- `FlatTreeState`. -/
inductive FlatTreeState where
  | Build
  | Refill
  | Done
deriving DecidableEq

/-- `FlatTreeBuilder::new`. -/
def FlatTreeBuilder.init (root : NodeF S) (height : Nat) : FlatTreeBuilder S :=
  { height, fnodes := [⟨root, [0]⟩], queue := [], start := 0,
    filled := root.splits.length - 1 }

/-- `FlatTreeBuilder::step`. -/
def FlatTreeBuilder.step (b : FlatTreeBuilder S) :
    FlatTreeState × FlatTreeBuilder S :=
  match b.queue with
  | [] =>
      if b.start = b.fnodes.length then (FlatTreeState.Done, b)
      else (FlatTreeState.Refill, b)
  | children :: qrest =>
      match children.iter with
      | [] => (FlatTreeState.Build, { b with queue := qrest })
      | child :: more =>
          let extra := child.splits.length - 1
          if b.filled + extra > b.height then
            (FlatTreeState.Done, { b with queue := qrest })
          else
            let path :=
              ((b.fnodes.getD children.last ⟨child, []⟩).path) ++ [b.fnodes.length]
            (FlatTreeState.Build,
             { b with filled := b.filled + extra,
                      queue := qrest ++ [{ iter := more, last := children.last }],
                      fnodes := b.fnodes ++ [⟨child, path⟩] })

/-- Stable insertion used to embed `Vec::sort_by`. -/
def insertBy (le : α → α → Bool) (x : α) : List α → List α
  | [] => [x]
  | y :: ys => if le y x then y :: insertBy le x ys else x :: y :: ys

/-- Stable sort used to embed `Vec::sort_by`. -/
def sortBy (le : α → α → Bool) : List α → List α
  | [] => []
  | x :: xs => insertBy le x (sortBy le xs)

/-- The priority order used by `FlatTreeBuilder::fill`; the driver assigns
`det = insertion index`, so this sort is the identity on the lists the
driver feeds in. -/
def prioLe (l r : NodeF S) : Bool :=
  decide (l.priority.det ≤ r.priority.det)

/-- `FlatTreeBuilder::fill`. -/
def FlatTreeBuilder.fill (b : FlatTreeBuilder S) (children : List (NodeF S))
    (last : Nat) : FlatTreeBuilder S :=
  { b with queue := b.queue ++ [⟨sortBy prioLe children, last⟩] }

/-- `FlatTreeBuilder::finish_fill`. -/
def FlatTreeBuilder.finishFill (b : FlatTreeBuilder S) : FlatTreeBuilder S :=
  { b with start := b.fnodes.length }

/-- Lexicographic order on path keys (`Vec<usize>::cmp`). -/
def pathLe : List Nat → List Nat → Bool
  | [], _ => true
  | _ :: _, [] => false
  | x :: xs, y :: ys =>
      if x < y then true else if y < x then false else pathLe xs ys

/-- `FlatTreeBuilder::finish`: order accepted nodes by path key. -/
def FlatTreeBuilder.finish (b : FlatTreeBuilder S) : List (NodeF S) :=
  (sortBy (fun l r => pathLe l.path r.path) b.fnodes).map (fun f => f.node)

/-- `get_children` (src/actions.rs): decode, wrap and prioritise the
children of `pid` for display depth `depth + 1` at viewport width
`width`; children whose name column width saturates to 0 are skipped. -/
def getChildrenF (fuel : Nat) (dec : P → Option NodeData) (st : Store P S)
    (pid depth width : Nat) : Option (List (NodeF S)) :=
  match childrenL fuel st pid with
  | none => none
  | some entries =>
      match entries.mapM (fun e =>
          match dec e.2 with
          | none => none
          | some data =>
              let w := width - (2 * (depth + 1) + 1)
              some (if w = 0 then []
                    else [({ id := e.1, pid := pid, depth := depth + 1,
                             data := data, session := readSession st e.1,
                             priority := Priority.dflt,
                             splits := wrapText data.name w } : NodeF S)])) with
      | none => none
      | some chunks =>
          let children := chunks.flatten
          some (children.enum.map (fun ci =>
            { ci.2 with priority := ⟨ci.1, children.length⟩ }))

/-- The `for i in builder.fill_range()` loop of `build_flattree`: fetch
children for each accepted index whose id has not been expanded yet. -/
def refillGo (dec : P → Option NodeData) (st : Store P S) (width fuel : Nat) :
    List Nat → FlatTreeBuilder S → List Nat →
    Option (FlatTreeBuilder S × List Nat)
  | [], b, seen => some (b, seen)
  | i :: rest, b, seen =>
      let dflt : FNodeB S :=
        ⟨{ id := 0, pid := 0, depth := 0, data := ⟨[]⟩, session := none,
           priority := Priority.dflt, splits := [] }, []⟩
      let nid := (b.fnodes.getD i dflt).node.id
      if nid ∈ seen then refillGo dec st width fuel rest b seen
      else
        match getChildrenF fuel dec st nid ((b.fnodes.getD i dflt).node.depth)
            width with
        | none => none
        | some children =>
            refillGo dec st width fuel rest (b.fill children i) (nid :: seen)

/-- The `loop { match builder.step() … }` of `build_flattree`: `Refill`
fetches children once per distinct id, `Done` returns the path-sorted
accepted nodes. -/
def buildLoop (dec : P → Option NodeData) (st : Store P S) (width : Nat) :
    Nat → FlatTreeBuilder S → List Nat → Option (List (NodeF S))
  | 0, _, _ => none
  | fuel + 1, b, seen =>
      match b.step with
      | (FlatTreeState.Build, b1) => buildLoop dec st width fuel b1 seen
      | (FlatTreeState.Done, b1) => some b1.finish
      | (FlatTreeState.Refill, b1) =>
          match refillGo dec st width fuel
              (List.range' b1.start (b1.fnodes.length - b1.start)) b1 seen with
          | none => none
          | some (b2, seen2) => buildLoop dec st width fuel b2.finishFill seen2

/-!  Date/session grammar (src/parser.rs).  The winnow combinators are
embedded as prefix parsers over `List Char` with an explicit distinction
between recoverable (`Backtrack`) and unrecoverable (`Cut`) failure, since
`alt` only retries after a recoverable one.  chrono's civil-calendar values
are embedded as year/month/day and hour/minute records, with the calendar
functions the parser relies on (`from_ymd_opt`, day arithmetic, weekdays)
implemented below. -/

/-- chrono `NaiveDate`: a civil year/month/day. -/
structure NDate where
  y : Int
  m : Nat
  d : Nat
deriving DecidableEq

/-- chrono `NaiveTime` as produced by `from_hms_opt(h, m, 0)`. -/
structure NTime where
  hour : Nat
  minute : Nat
deriving DecidableEq

/-- chrono `NaiveDateTime`. -/
structure NDateTime where
  date : NDate
  time : NTime
deriving DecidableEq

/-- `Session` (grus_lib types): a start/end pair of datetimes. -/
structure SessionV where
  start : NDateTime
  stop : NDateTime
deriving DecidableEq

/-- Gregorian leap year. -/
def isLeap (y : Int) : Bool :=
  y % 4 = 0 ∧ (y % 100 ≠ 0 ∨ y % 400 = 0)

/-- Days in a civil month. -/
def daysInMonth (y : Int) (m : Nat) : Nat :=
  if m = 2 then (if isLeap y then 29 else 28)
  else if m = 4 ∨ m = 6 ∨ m = 9 ∨ m = 11 then 30
  else 31

/-- chrono `NaiveDate::from_ymd_opt`. -/
def fromYmd (y : Int) (m d : Nat) : Option NDate :=
  if 1 ≤ m ∧ m ≤ 12 ∧ 1 ≤ d ∧ d ≤ daysInMonth y m then some ⟨y, m, d⟩
  else none

/-- The calendar successor of a civil date (`date + Days::new(1)`). -/
def nextDay (dt : NDate) : NDate :=
  if dt.d < daysInMonth dt.y dt.m then { dt with d := dt.d + 1 }
  else if dt.m < 12 then ⟨dt.y, dt.m + 1, 1⟩
  else ⟨dt.y + 1, 1, 1⟩

/-- The calendar predecessor of a civil date (`date - Days::new(1)`). -/
def prevDay (dt : NDate) : NDate :=
  if 1 < dt.d then { dt with d := dt.d - 1 }
  else if 1 < dt.m then ⟨dt.y, dt.m - 1, daysInMonth dt.y (dt.m - 1)⟩
  else ⟨dt.y - 1, 12, 31⟩

/-- `date + Days::new(n)`. -/
def addDays (dt : NDate) : Nat → NDate
  | 0 => dt
  | n + 1 => addDays (nextDay dt) n

/-- Days since 1970-01-01 of a civil date (the standard civil-from-days
computation), used for the day of week. -/
def daysFromCivil (dt : NDate) : Int :=
  let y : Int := if dt.m ≤ 2 then dt.y - 1 else dt.y
  let era : Int := Int.fdiv y 400
  let yoe : Int := y - era * 400
  let mp : Int := (Int.ofNat dt.m + 9) % 12
  let doy : Int := (153 * mp + 2) / 5 + Int.ofNat dt.d - 1
  let doe : Int := yoe * 365 + yoe / 4 - yoe / 100 + doy
  era * 146097 + doe - 719468

/-- chrono `Weekday::num_days_from_monday` of a date (1970-01-01 was a
Thursday, 3 days from Monday). -/
def numFromMonday (dt : NDate) : Nat :=
  ((daysFromCivil dt + 3) % 7).toNat

/-- A parse outcome: success with the rest of the input, a recoverable
error (`ErrMode::Backtrack`), or an unrecoverable one (`ErrMode::Cut`). -/
inductive PRes (α : Type) where
  | ok (v : α) (rest : List Char)
  | back
  | cut
deriving DecidableEq

/-- `alt` over two parsers: try the second only after a recoverable
failure of the first. -/
def pAlt (p q : List Char → PRes α) (s : List Char) : PRes α :=
  match p s with
  | PRes.back => q s
  | r => r

/-- `Parser::map`. -/
def pMap (p : List Char → PRes α) (f : α → β) (s : List Char) : PRes β :=
  match p s with
  | PRes.ok v rest => PRes.ok (f v) rest
  | PRes.back => PRes.back
  | PRes.cut => PRes.cut

/-- `separated_pair(p, sep, q)`. -/
def pPair (p : List Char → PRes α) (sep : List Char → PRes γ)
    (q : List Char → PRes β) (s : List Char) : PRes (α × β) :=
  match p s with
  | PRes.back => PRes.back
  | PRes.cut => PRes.cut
  | PRes.ok a s1 =>
      match sep s1 with
      | PRes.back => PRes.back
      | PRes.cut => PRes.cut
      | PRes.ok _ s2 =>
          match q s2 with
          | PRes.back => PRes.back
          | PRes.cut => PRes.cut
          | PRes.ok b s3 => PRes.ok (a, b) s3

/-- `tag`: match a literal. -/
def pTag (t : List Char) (s : List Char) : PRes (List Char) :=
  if t.isPrefixOf s then PRes.ok t (s.drop t.length) else PRes.back

/-- `tag_no_case`: match a literal up to ASCII case. -/
def pTagNoCase (t : List Char) (s : List Char) : PRes (List Char) :=
  if (t.map Char.toLower).isPrefixOf ((s.take t.length).map Char.toLower) ∧
      t.length ≤ s.length then
    PRes.ok (s.take t.length) (s.drop t.length)
  else PRes.back

/-- `take(n)`. -/
def pTake (n : Nat) (s : List Char) : PRes (List Char) :=
  if n ≤ s.length then PRes.ok (s.take n) (s.drop n) else PRes.back

/-- winnow `AsChar::is_space`: ASCII space or tab. -/
def isSpaceAscii (c : Char) : Bool :=
  c = ' ' ∨ c = '\t'

/-- `take_while0(pred)`. -/
def pTakeWhile0 (pred : Char → Bool) (s : List Char) : PRes (List Char) :=
  PRes.ok (s.takeWhile pred) (s.dropWhile pred)

/-- `take_while1(pred)`. -/
def pTakeWhile1 (pred : Char → Bool) (s : List Char) : PRes (List Char) :=
  match s.takeWhile pred with
  | [] => PRes.back
  | taken => PRes.ok taken (s.dropWhile pred)

/-- Index of the first occurrence of literal `t` in `s`, if any. -/
def findLit (t : List Char) : List Char → Option Nat
  | [] => if t = [] then some 0 else none
  | c :: rest =>
      if t.isPrefixOf (c :: rest) then some 0
      else (findLit t rest).map (· + 1)

/-- `take_until1(t)`: everything before the first occurrence of `t`,
failing when `t` is absent or nothing would be taken. -/
def pTakeUntil1 (t : List Char) (s : List Char) : PRes (List Char) :=
  match findLit t s with
  | none => PRes.back
  | some 0 => PRes.back
  | some n => PRes.ok (s.take n) (s.drop n)

/-- Rust `str::parse::<u32>`: optional leading `+`, one or more ASCII
digits, value below `2^32`. -/
def parseU32 (cs : List Char) : Option Nat :=
  let ds := match cs with
            | '+' :: rest => rest
            | _ => cs
  if ds ≠ [] ∧ ds.all (fun c => c.isDigit) then
    let v := ds.foldl (fun acc c => acc * 10 + (c.toNat - 48)) 0
    if v < 4294967296 then some v else none
  else none

/-- `proper_time`: `digits ":" DD ws? meridiem`. -/
def properTime (s : List Char) : PRes NTime :=
  match pTakeUntil1 [':'] s with
  | PRes.back => PRes.back
  | PRes.cut => PRes.cut
  | PRes.ok hour s1 =>
      match pTag [':'] s1 with
      | PRes.back => PRes.back
      | PRes.cut => PRes.cut
      | PRes.ok _ s2 =>
          match pTake 2 s2 with
          | PRes.back => PRes.back
          | PRes.cut => PRes.cut
          | PRes.ok minute s3 =>
              let s4 := s3.dropWhile isSpaceAscii
              match pAlt (pMap (pAlt (pTag "am".toList) (pTag "AM".toList)) (fun _ => 0))
                  (pMap (pAlt (pTag "pm".toList) (pTag "PM".toList)) (fun _ => 12)) s4 with
              | PRes.back => PRes.back
              | PRes.cut => PRes.cut
              | PRes.ok delta s5 =>
                  match parseU32 hour with
                  | none => PRes.cut
                  | some h0 =>
                      if h0 > 12 then PRes.cut
                      else
                        let h := (if h0 = 12 then 0 else h0) + delta
                        match parseU32 minute with
                        | none => PRes.cut
                        | some m =>
                            if h < 24 ∧ m < 60 then PRes.ok ⟨h, m⟩ s5
                            else PRes.cut

/-- `quick_time`: `digits ws? meridiem`. -/
def quickTime (s : List Char) : PRes NTime :=
  match pTakeWhile1 (fun c => c.isDigit) s with
  | PRes.back => PRes.back
  | PRes.cut => PRes.cut
  | PRes.ok hour s1 =>
      let s2 := s1.dropWhile isSpaceAscii
      match pAlt (pMap (pAlt (pTag "am".toList) (pTag "AM".toList)) (fun _ => 0))
          (pMap (pAlt (pTag "pm".toList) (pTag "PM".toList)) (fun _ => 12)) s2 with
      | PRes.back => PRes.back
      | PRes.cut => PRes.cut
      | PRes.ok delta s3 =>
          match parseU32 hour with
          | none => PRes.cut
          | some h0 =>
              if h0 > 12 then PRes.cut
              else
                let h := (if h0 = 12 then 0 else h0) + delta
                if h < 24 then PRes.ok ⟨h, 0⟩ s3 else PRes.cut

/-- `time`: proper or quick. -/
def timeP (s : List Char) : PRes NTime :=
  pAlt properTime quickTime s

/-- `dd "/" mm "/" yyyy`. -/
def ddmmyyyy (s : List Char) : PRes NDate :=
  match pTake 2 s with
  | PRes.back => PRes.back
  | PRes.cut => PRes.cut
  | PRes.ok day s1 =>
      match pTag ['/'] s1 with
      | PRes.back => PRes.back
      | PRes.cut => PRes.cut
      | PRes.ok _ s2 =>
          match pTake 2 s2 with
          | PRes.back => PRes.back
          | PRes.cut => PRes.cut
          | PRes.ok month s3 =>
              match pTag ['/'] s3 with
              | PRes.back => PRes.back
              | PRes.cut => PRes.cut
              | PRes.ok _ s4 =>
                  match pTake 4 s4 with
                  | PRes.back => PRes.back
                  | PRes.cut => PRes.cut
                  | PRes.ok year s5 =>
                      match parseU32 year, parseU32 month, parseU32 day with
                      | some y, some m, some d =>
                          match fromYmd (Int.ofNat y) m d with
                          | some date => PRes.ok date s5
                          | none => PRes.cut
                      | _, _, _ => PRes.cut

/-- `weekday`: resolve a weekday name to its next occurrence on or after
`today`. -/
def weekdayP (today : NDate) (s : List Char) : PRes NDate :=
  let kw (long short : String) (n : Nat) :=
    pMap (pAlt (pTagNoCase long.toList) (pTagNoCase short.toList)) (fun _ => n)
  match pAlt (kw "monday" "mon" 0) (pAlt (kw "tuesday" "tue" 1)
      (pAlt (kw "wednesday" "wed" 2) (pAlt (kw "thursday" "thu" 3)
      (pAlt (kw "friday" "fri" 4) (pAlt (kw "saturday" "sat" 5)
      (kw "sunday" "sun" 6)))))) s with
  | PRes.back => PRes.back
  | PRes.cut => PRes.cut
  | PRes.ok wd rest =>
      let delta := (wd + 7 - numFromMonday today) % 7
      PRes.ok (addDays today delta) rest

/-- `date`: keyword dates, weekdays or `dd/mm/yyyy`; relative keywords
resolve against `today` (`Local::now().date_naive()`). -/
def dateP (today : NDate) (s : List Char) : PRes NDate :=
  pAlt (pMap (pTagNoCase "today".toList) (fun _ => today))
    (pAlt (pMap (pTagNoCase "yesterday".toList) (fun _ => prevDay today))
      (pAlt (pMap (pAlt (pTagNoCase "tmrw".toList) (pTagNoCase "tomorrow".toList))
          (fun _ => nextDay today))
        (pAlt (weekdayP today) ddmmyyyy))) s

/-- `datetime`: `date ws* time`. -/
def datetimeP (today : NDate) (s : List Char) : PRes NDateTime :=
  match dateP today s with
  | PRes.back => PRes.back
  | PRes.cut => PRes.cut
  | PRes.ok date s1 =>
      let s2 := s1.dropWhile isSpaceAscii
      match timeP s2 with
      | PRes.back => PRes.back
      | PRes.cut => PRes.cut
      | PRes.ok t s3 => PRes.ok ⟨date, t⟩ s3

/-- `parse_session` (src/parser.rs): the four `dt/time to dt/time`
alternatives; `Parser::parse` demands that all input is consumed. -/
def parseSession (today : NDate) (s : List Char) : Option SessionV :=
  match pAlt (pMap (pPair (datetimeP today) (pTag " to ".toList) (datetimeP today))
        (fun p => SessionV.mk p.1 p.2))
      (pAlt (pMap (pPair (datetimeP today) (pTag " to ".toList) timeP)
          (fun p => SessionV.mk p.1 ⟨p.1.date, p.2⟩))
        (pAlt (pMap (pPair timeP (pTag " to ".toList) (datetimeP today))
            (fun p => SessionV.mk ⟨today, p.1⟩ p.2))
          (pMap (pPair timeP (pTag " to ".toList) timeP)
            (fun p => SessionV.mk ⟨today, p.1⟩ ⟨today, p.2⟩)))) s with
  | PRes.ok v [] => some v
  | _ => none

/-- `parse_datetime` (src/parser.rs). -/
def parseDatetime (today : NDate) (s : List Char) : Option NDateTime :=
  match pAlt (datetimeP today)
      (pAlt (pMap timeP (fun t => NDateTime.mk today t))
        (pMap (dateP today) (fun d => NDateTime.mk d ⟨0, 0⟩))) s with
  | PRes.ok v [] => some v
  | _ => none

/-- `build_flattree` (src/actions.rs). -/
def buildFlattree (fuel : Nat) (dec : P → Option NodeData) (st : Store P S)
    (id height width : Nat) : Option (List (NodeF S)) :=
  if width ≤ 1 then some []
  else
    match readNode st id with
    | none => none
    | some payload =>
        match dec payload with
        | none => none
        | some rootData =>
            let rootSplits := wrapText rootData.name (width - 1)
            if rootSplits.length - 1 > height then some []
            else
              let root : NodeF S :=
                { id := id, pid := id, depth := 0, data := rootData,
                  session := readSession st id, priority := Priority.dflt,
                  splits := rootSplits }
              buildLoop dec st width fuel (FlatTreeBuilder.init root height) []

/-!  Specification-side predicates used to state the claims, and the
concrete example stores of the spec's end-to-end scenarios. -/

/-- `seg st p prev cs after`: the RLINKS triples of the ids `cs` form a
well-linked doubly-linked-list segment under parent `p`, entered with
previous sibling `prev` and exited towards `after`. -/
def seg (st : Store P S) (p : Nat) : Nat → List Nat → Nat → Bool
  | _, [], _ => true
  | prev, c :: rest, after =>
      decide (c ≠ 0) &&
      decide (getRt st c p = some ⟨p, rest.headD after, prev⟩) &&
      seg st p c rest after

/-- The sibling DLL of parent `p` consists exactly of `cs`, in order:
the LINKS head agrees with `cs` and the triples chain through `cs`. -/
def dllOk (st : Store P S) (p : Nat) (cs : List Nat) : Bool :=
  decide ((getChild st p).getD 0 = cs.headD 0) && seg st p 0 cs 0

/-- Every RLINKS entry of `id` has parent field `pid` (so `pid` is the
only parent of `id`). -/
def onlyParent (st : Store P S) (id pid : Nat) : Bool :=
  st.rlinks.all (fun e => !(e.1 == id) || (e.2.pid == pid))

/-- `id` has an RLINKS entry under some parent other than `pid`. -/
def hasOtherParent (st : Store P S) (id pid : Nat) : Bool :=
  st.rlinks.any (fun e => e.1 == id && !(e.2.pid == pid))

/-- The `(child, parent)` key pairs of RLINKS are pairwise distinct, as
the B-tree write discipline guarantees. -/
def rlinksWf (st : Store P S) : Prop :=
  (st.rlinks.map (fun e => (e.1, e.2.pid))).Nodup

instance (st : Store P S) : Decidable (rlinksWf st) := by
  unfold rlinksWf; infer_instance

/-- The NODES keys are pairwise distinct, as the B-tree guarantees. -/
def nodesWf (st : Store P S) : Prop :=
  (st.nodes.map (fun e => e.1)).Nodup

instance (st : Store P S) : Decidable (nodesWf st) := by
  unfold nodesWf; infer_instance

/-- Row-height total of a flat tree (`splits.len() - 1` summed). -/
def rowSum (ns : List (NodeF S)) : Nat :=
  (ns.map (fun n => n.splits.length - 1)).sum

/-- Row-height total of the builder's accepted nodes. -/
def rowSumB (fs : List (FNodeB S)) : Nat :=
  (fs.map (fun f => f.node.splits.length - 1)).sum

/-- Scenario store `0→1→2` (spec scenario C). -/
def stChain : Option (Store Nat Nat) :=
  (addChild (createBase 0) 0 1).bind (fun r1 =>
    (addChild r1.2 1 2).map (fun r2 => r2.2))

/-- Scenario store for spec scenario B: edges `0→1`, `0→2`, `1→3`, and
`3` shared under `2`. -/
def stShared : Option (Store Nat Nat) :=
  (addChild (createBase 0) 0 1).bind (fun r1 =>
    (addChild r1.2 0 2).bind (fun r2 =>
      (addChild r2.2 1 3).bind (fun r3 =>
        (share 9 r3.2 3 2).map (fun r4 => r4.2))))

/-- A store with sibling order `[2, 1]` under the root (two children
added in sequence). -/
def stTwo : Option (Store Nat Nat) :=
  (addChild (createBase 0) 0 1).bind (fun r1 =>
    (addChild r1.2 0 2).map (fun r2 => r2.2))

/-- A store with sibling order `[3, 2, 1]` under the root (spec scenario
D's `[a, b, c]` with `a = 3`, `b = 2`, `c = 1`). -/
def stThree : Option (Store Nat Nat) :=
  (addChild (createBase 0) 0 1).bind (fun r1 =>
    (addChild r1.2 0 2).bind (fun r2 =>
      (addChild r2.2 0 3).map (fun r3 => r3.2)))

/-- Fresh store with a single node `1` under the root carrying session
`42` (used for the delete/session interaction). -/
def stSession : Option (Store Nat Nat) :=
  (addChild (createBase 0) 0 7).map (fun r1 => addSession r1.2 1 42)

/-- Scenario store of spec scenario A: `"one"` under 0 (id 1), then
`"two"` under 1 (id 2). -/
def stNames : Option (Store String Nat) :=
  (addChild (createBase "/") 0 "one").bind (fun r1 =>
    (addChild r1.2 1 "two").map (fun r2 => r2.2))

/-!  Basic lemmas about the association-list B-tree model. -/

theorem find?_eraseP_of_disjoint {α : Type} (p q : α → Bool) (l : List α)
    (h : ∀ x, q x = true → p x = false) :
    (l.eraseP q).find? p = l.find? p := by
  induction l with
  | nil => rfl
  | cons x xs ih =>
      cases hq : q x with
      | true =>
          rw [List.eraseP_cons_of_pos hq]
          rw [List.find?_cons_of_neg _ (by simp [h x hq])]
      | false =>
          rw [List.eraseP_cons_of_neg (by simp [hq])]
          cases hp : p x with
          | false =>
              rw [List.find?_cons_of_neg _ (by simp [hp]),
                  List.find?_cons_of_neg _ (by simp [hp])]
              exact ih
          | true =>
              rw [List.find?_cons_of_pos _ hp, List.find?_cons_of_pos _ hp]

theorem find?_none_of_eraseP_nodupkey {β : Type} (key : Nat)
    (l : List (Nat × β)) (h : (l.map (fun e => e.1)).Nodup) :
    (l.eraseP (fun e => decide (e.1 = key))).find?
      (fun e => decide (e.1 = key)) = none := by
  induction l with
  | nil => rfl
  | cons x xs ih =>
      simp only [List.map_cons, List.nodup_cons] at h
      by_cases hx : x.1 = key
      · rw [List.eraseP_cons_of_pos (by simp [hx])]
        rw [List.find?_eq_none]
        intro e he
        simp only [decide_eq_true_eq]
        intro hk
        exact h.1 (by rw [hx, ← hk]; exact List.mem_map_of_mem (fun e => e.1) he)
      · rw [List.eraseP_cons_of_neg (by simp [hx])]
        rw [List.find?_cons_of_neg _ (by simp [hx])]
        exact ih h.2

theorem cons_eraseP_perm {α : Type} (p : α → Bool) (x : α) (l : List α)
    (hm : x ∈ l) (hiff : ∀ y, p y = true ↔ y = x) :
    List.Perm (x :: l.eraseP p) l := by
  induction l with
  | nil => cases hm
  | cons z zs ih =>
      by_cases hz : p z = true
      · have hzx : z = x := (hiff z).1 hz
        subst hzx
        rw [List.eraseP_cons_of_pos hz]
      · have hzx : z ≠ x := fun he => hz ((hiff z).2 he)
        have hm' : x ∈ zs := by
          cases List.mem_cons.1 hm with
          | inl h => exact absurd h.symm hzx
          | inr h => exact h
        rw [List.eraseP_cons_of_neg (by simp [hz])]
        exact (List.Perm.swap z x _).trans (List.Perm.cons z (ih hm'))

theorem getLastD_mem_of_ne_nil (l : List Nat) (h : l ≠ []) :
    ∀ d, l.getLastD d ∈ l := by
  induction l with
  | nil => exact absurd rfl h
  | cons x xs ih =>
      intro d
      cases hxs : xs with
      | nil => simp
      | cons y ys =>
          rw [List.getLastD_cons]
          subst hxs
          exact List.mem_cons_of_mem x (ih (by simp) x)

theorem headD_append_ne_nil (l m : List Nat) (d : Nat) (h : l ≠ []) :
    (l ++ m).headD d = l.headD d := by
  cases l with
  | nil => exact absurd rfl h
  | cons x xs => rfl

theorem rtLookup_pid (R : List (Nat × RTriple)) (c q : Nat) (rt : RTriple)
    (h : rtLookup R c q = some rt) : rt.pid = q := by
  unfold rtLookup at h
  cases hf : R.find? (fun e => decide (e.1 = c ∧ e.2.pid = q)) with
  | none => rw [hf] at h; cases h
  | some e =>
      rw [hf] at h
      have hp := List.find?_some hf
      simp only [decide_eq_true_eq] at hp
      simp only [Option.map_some'] at h
      cases h
      exact hp.2

theorem rtLookup_cons_self (R : List (Nat × RTriple)) (c q : Nat)
    (rt : RTriple) (h : rt.pid = q) :
    rtLookup ((c, rt) :: R) c q = some rt := by
  unfold rtLookup
  rw [List.find?_cons_of_pos _ (by simp [h])]
  rfl

theorem rtLookup_cons_ne (R : List (Nat × RTriple)) (a c q : Nat)
    (rt : RTriple) (h : c ≠ a ∨ q ≠ rt.pid) :
    rtLookup ((a, rt) :: R) c q = rtLookup R c q := by
  unfold rtLookup
  rw [List.find?_cons_of_neg]
  simp only [decide_eq_true_eq, not_and]
  intro hc hq
  cases h with
  | inl h1 => exact h1 hc.symm
  | inr h1 => exact h1 hq.symm

theorem rtLookup_delRlink_ne (R : List (Nat × RTriple)) (a c q : Nat)
    (rt : RTriple) (h : c ≠ a ∨ q ≠ rt.pid) :
    rtLookup (delRlink R a rt) c q = rtLookup R c q := by
  unfold rtLookup delRlink
  rw [find?_eraseP_of_disjoint]
  intro x hx
  simp only [decide_eq_true_eq] at hx
  simp only [decide_eq_false_iff_not, not_and]
  intro hc hq
  cases h with
  | inl h1 => exact h1 (hc.symm.trans hx.1)
  | inr h1 => exact h1 (by rw [← hq, hx.2])

theorem rtLookup_mem (R : List (Nat × RTriple)) (c q : Nat) (rt : RTriple)
    (h : rtLookup R c q = some rt) : (c, rt) ∈ R := by
  unfold rtLookup at h
  cases hf : R.find? (fun e => decide (e.1 = c ∧ e.2.pid = q)) with
  | none => rw [hf] at h; cases h
  | some e =>
      rw [hf] at h
      simp only [Option.map_some'] at h
      have hp := List.find?_some hf
      simp only [decide_eq_true_eq] at hp
      have hm := List.mem_of_find?_eq_some hf
      cases h
      have he : e = (c, e.2) := by
        cases e with
        | mk e1 e2 => exact congrArg (fun z => (z, e2)) hp.1
      rw [← he]
      exact hm

theorem linksLookup_cons_self (L : List (Nat × Nat)) (k v : Nat) :
    linksLookup ((k, v) :: L) k = some v := by
  unfold linksLookup
  rw [List.find?_cons_of_pos _ (by simp)]
  rfl

theorem linksLookup_cons_ne (L : List (Nat × Nat)) (a k v : Nat)
    (h : k ≠ a) : linksLookup ((a, v) :: L) k = linksLookup L k := by
  unfold linksLookup
  rw [List.find?_cons_of_neg]
  simp only [decide_eq_true_eq]
  intro hc
  exact h hc.symm

theorem linksLookup_delKey_ne (L : List (Nat × Nat)) (a k : Nat)
    (h : k ≠ a) : linksLookup (delLinksKey L a) k = linksLookup L k := by
  unfold linksLookup delLinksKey
  rw [find?_eraseP_of_disjoint]
  intro x hx
  simp only [decide_eq_true_eq] at hx
  simp only [decide_eq_false_iff_not]
  intro hc
  exact h (hc.symm.trans hx)

theorem linksLookup_delKV_ne (L : List (Nat × Nat)) (a v k : Nat)
    (h : k ≠ a) : linksLookup (delLinksKV L a v) k = linksLookup L k := by
  unfold linksLookup delLinksKV
  rw [find?_eraseP_of_disjoint]
  intro x hx
  simp only [decide_eq_true_eq] at hx
  simp only [decide_eq_false_iff_not]
  intro hc
  exact h (hc.symm.trans hx.1)

/-!  Lemmas about `modify_rt`. -/

theorem modifyRt_eq (st : Store P S) (a q : Nat) (f : RTriple → RTriple)
    (rt : RTriple) (h : getRt st a q = some rt) :
    modifyRt st a q f =
      some { st with rlinks := (a, f rt) :: delRlink st.rlinks a rt } := by
  unfold modifyRt
  rw [h]

theorem exists_of_modifyRt (st st' : Store P S) (a q : Nat)
    (f : RTriple → RTriple) (h : modifyRt st a q f = some st') :
    ∃ rt, getRt st a q = some rt ∧
      st' = { st with rlinks := (a, f rt) :: delRlink st.rlinks a rt } := by
  unfold modifyRt at h
  cases hrt : getRt st a q with
  | none => rw [hrt] at h; cases h
  | some rt =>
      rw [hrt] at h
      cases h
      exact ⟨rt, rfl, rfl⟩

theorem modifyRt_keeps (st st' : Store P S) (a q : Nat)
    (f : RTriple → RTriple) (h : modifyRt st a q f = some st') :
    st'.links = st.links ∧ st'.nodes = st.nodes ∧
      st'.sessions = st.sessions ∧ st'.rsessions = st.rsessions ∧
      st'.id = st.id := by
  obtain ⟨rt, _, rfl⟩ := exists_of_modifyRt st st' a q f h
  exact ⟨rfl, rfl, rfl, rfl, rfl⟩

theorem getRt_modifyRt_self (st st' : Store P S) (a q : Nat)
    (f : RTriple → RTriple) (rt : RTriple)
    (hrt : getRt st a q = some rt)
    (h : modifyRt st a q f = some st')
    (hf : ∀ t, (f t).pid = t.pid) :
    getRt st' a q = some (f rt) := by
  rw [modifyRt_eq st a q f rt hrt] at h
  cases h
  unfold getRt
  exact rtLookup_cons_self _ _ _ _ (by rw [hf]; exact rtLookup_pid _ _ _ _ hrt)

theorem getRt_modifyRt_ne (st st' : Store P S) (a q c q' : Nat)
    (f : RTriple → RTriple)
    (h : modifyRt st a q f = some st')
    (hf : ∀ t, (f t).pid = t.pid)
    (hne : c ≠ a ∨ q' ≠ q) :
    getRt st' c q' = getRt st c q' := by
  obtain ⟨rt, hrt, rfl⟩ := exists_of_modifyRt st st' a q f h
  have hpid : rt.pid = q := rtLookup_pid _ _ _ _ hrt
  unfold getRt
  rw [rtLookup_cons_ne _ _ _ _ _ (by rw [hf, hpid]; exact hne)]
  exact rtLookup_delRlink_ne _ _ _ _ _ (by rw [hpid]; exact hne)

theorem getRt_of_links_update (st st' : Store P S)
    (h : st'.rlinks = st.rlinks) (c q : Nat) :
    getRt st' c q = getRt st c q := by
  unfold getRt
  rw [h]

theorem getChild_of_rlinks_update (st st' : Store P S)
    (h : st'.links = st.links) (c : Nat) :
    getChild st' c = getChild st c := by
  unfold getChild
  rw [h]

theorem find?_eraseP_none {α : Type} (p q : α → Bool) (l : List α)
    (h : l.find? p = none) : (l.eraseP q).find? p = none := by
  rw [List.find?_eq_none] at h ⊢
  intro x hx
  exact h x ((l.eraseP_sublist).subset hx)

theorem readNode_nodes_eq (st st' : Store P S) (h : st'.nodes = st.nodes)
    (k : Nat) : readNode st' k = readNode st k := by
  unfold readNode
  rw [h]

/-!  Claim theorems. -/

/-- C1: `share(src, dest)` returns false exactly when `dest` is already a
parent of `src` (an RLINKS triple `(src, dest)` exists) or `dest` is
reachable from `src` via forward child links (`is_descendent_of`), and
a false return leaves the store completely unchanged.  In the store
`0→1→2`, `share(1, 2)` returns false and changes nothing. -/
theorem C1_share_refusal :
    (∀ (P S : Type) (fuel : Nat) (st : Store P S) (src dest : Nat)
       (b : Bool) (st' : Store P S),
       share fuel st src dest = some (b, st') →
         ((b = false ↔
            (isDesc fuel st dest src = some true ∨ (getRt st src dest).isSome)) ∧
          (b = false → st' = st))) ∧
    (stChain.bind (fun st => share 9 st 1 2) =
        stChain.map (fun st => (false, st)) ∧
      stChain.isSome = true) := by
  constructor
  · intro P S fuel st src dest b st' hsh
    unfold share at hsh
    simp only [] at hsh
    split at hsh
    · cases hsh
    · rename_i hd
      injection hsh with hsh
      injection hsh with hb hst
      subst hb; subst hst
      exact ⟨⟨fun _ => Or.inl hd, fun _ => rfl⟩, fun _ => rfl⟩
    · rename_i hd
      split at hsh
      · rename_i hrt
        injection hsh with hsh
        injection hsh with hb hst
        subst hb; subst hst
        exact ⟨⟨fun _ => Or.inr hrt, fun _ => rfl⟩, fun _ => rfl⟩
      · rename_i hrt
        split at hsh
        · cases hsh
        · injection hsh with hsh
          injection hsh with hb hst
          subst hb
          constructor
          · constructor
            · intro hfalse; cases hfalse
            · intro hor
              cases hor with
              | inl h1 => rw [hd] at h1; cases h1
              | inr h1 => exact absurd h1 hrt
          · intro hfalse; cases hfalse
  · constructor
    · decide
    · decide

/-- C3 (code evaluation at the failing input): in a store whose root has
sibling DLL `[2, 1]`, `cut(0, 2, 1)` succeeds, but afterwards LINKS has no
entry for parent 0 at all — instead of pointing at the next sibling 1 — so
walking 0's children yields `[]` even though node 1 still holds the RLINKS
triple `(1, {pid 0, next 0, prev 0})`; nodes 1 and 2 both survive and 2 is
now the single child of 1. -/
theorem C3_cut_drops_head_link :
    (stTwo.bind (fun st => cut 9 st 0 2 1)).map
        (fun r => (r.1, getChild r.2 0, getRt r.2 1 0, childIds 9 r.2 0)) =
      some (true, none, some ⟨0, 0, 0⟩, some []) ∧
    (stTwo.bind (fun st => cut 9 st 0 2 1)).map
        (fun r => (childIds 9 r.2 1, readNode r.2 1, readNode r.2 2)) =
      some (some [2], some 1, some 2) ∧
    stTwo.map (fun st => childIds 9 st 0) = some (some [2, 1]) := by
  exact ⟨by decide, by decide, by decide⟩

/-- C10: `modify(id, payload)` is total and does not check existence: it
always leaves `NODES[id] = payload` (inserting when absent), changes no
other NODES entry and no other index, and on a fresh store `modify(5, d)`
creates a NODES entry for the never-allocated id 5 with no RLINKS
parent. -/
theorem C10_modify_inserts_silently :
    (∀ (P S : Type) (st : Store P S) (id : Nat) (data : P),
       readNode (modifyNode st id data) id = some data) ∧
    (∀ (P S : Type) (st : Store P S) (id : Nat) (data : P) (k : Nat),
       k ≠ id → readNode (modifyNode st id data) k = readNode st k) ∧
    (∀ (P S : Type) (st : Store P S) (id : Nat) (data : P),
       (modifyNode st id data).links = st.links ∧
       (modifyNode st id data).rlinks = st.rlinks ∧
       (modifyNode st id data).sessions = st.sessions ∧
       (modifyNode st id data).rsessions = st.rsessions ∧
       (modifyNode st id data).id = st.id) ∧
    (readNode (modifyNode (createBase 0 : Store Nat Nat) 5 77) 5 = some 77 ∧
     readNode (createBase 0 : Store Nat Nat) 5 = none ∧
     hasAnyRt (modifyNode (createBase 0 : Store Nat Nat) 5 77) 5 = false) := by
  refine ⟨?_, ?_, ?_, by decide, by decide, by decide⟩
  · intro P S st id data
    unfold readNode modifyNode
    rw [List.find?_cons_of_pos _ (by simp)]
    rfl
  · intro P S st id data k hk
    unfold readNode modifyNode
    rw [List.find?_cons_of_neg _ (by simp [Ne.symm hk])]
    rw [find?_eraseP_of_disjoint]
    intro x hx
    simp only [decide_eq_true_eq] at hx
    simp only [decide_eq_false_iff_not]
    intro hc
    exact hk (hc.symm.trans hx)
  · intro P S st id data
    exact ⟨rfl, rfl, rfl, rfl, rfl⟩

theorem readNode_eraseP_none (l : List (Nat × P)) (k : Nat)
    (pr : (Nat × P) → Bool)
    (h : l.find? (fun e => decide (e.1 = k)) = none) :
    (l.eraseP pr).find? (fun e => decide (e.1 = k)) = none :=
  find?_eraseP_none _ _ _ h

theorem deleteGo_preserves : ∀ (fuel : Nat) (st : Store P S) (op : DelOp)
    (st' : Store P S), deleteGo fuel st op = some st' →
    st'.sessions = st.sessions ∧ st'.rsessions = st.rsessions ∧
    (∀ k, readNode st k = none → readNode st' k = none) := by
  intro fuel
  induction fuel with
  | zero => intro st op st' h; cases h
  | succ fuel ih =>
      intro st op st' h
      cases op with
      | del pid id =>
          unfold deleteGo at h
          simp only [] at h
          split at h
          · cases h
          · rename_i rt hrt
            split at h
            · cases h
            · rename_i st1 heq1
              split at h
              · cases h
              · rename_i st2 heq2
                have h1 : st1.sessions = st.sessions ∧ st1.rsessions = st.rsessions ∧
                    st1.nodes = st.nodes := by
                  split at heq1
                  · have := modifyRt_keeps _ _ _ _ _ heq1
                    exact ⟨this.2.2.1, this.2.2.2.1, this.2.1⟩
                  · split at heq1
                    · injection heq1 with heq1
                      subst heq1
                      exact ⟨rfl, rfl, rfl⟩
                    · injection heq1 with heq1
                      subst heq1
                      exact ⟨rfl, rfl, rfl⟩
                have h2 : st2.sessions = st1.sessions ∧ st2.rsessions = st1.rsessions ∧
                    st2.nodes = st1.nodes := by
                  split at heq2
                  · have := modifyRt_keeps _ _ _ _ _ heq2
                    exact ⟨this.2.2.1, this.2.2.2.1, this.2.1⟩
                  · injection heq2 with heq2
                    subst heq2
                    exact ⟨rfl, rfl, rfl⟩
                have h3 := ih st2 (DelOp.helper pid id) st' h
                refine ⟨h3.1.trans (h2.1.trans h1.1), h3.2.1.trans (h2.2.1.trans h1.2.1), ?_⟩
                intro k hk
                apply h3.2.2
                unfold readNode
                rw [h2.2.2, h1.2.2]
                exact hk
      | helper pid id =>
          unfold deleteGo at h
          simp only [] at h
          split at h
          · cases h
          · rename_i rt hrt
            split at h
            · injection h with h
              subst h
              exact ⟨rfl, rfl, fun k hk => hk⟩
            · split at h
              · injection h with h
                subst h
                refine ⟨rfl, rfl, ?_⟩
                intro k hk
                unfold readNode at hk ⊢
                have hk2 : st.nodes.find? (fun e => decide (e.1 = k)) = none := by
                  cases hf : st.nodes.find? (fun e => decide (e.1 = k)) with
                  | none => rfl
                  | some e => rw [hf] at hk; simp at hk
                rw [readNode_eraseP_none _ _ _ hk2]
                rfl
              · split at h
                · cases h
                · rename_i frt hfrt
                  split at h
                  · cases h
                  · rename_i st4 hst4
                    have h4 := ih _ _ _ hst4
                    have h5 := ih _ _ _ h
                    refine ⟨h5.1.trans h4.1, h5.2.1.trans h4.2.1, ?_⟩
                    intro k hk
                    apply h5.2.2
                    apply h4.2.2
                    unfold readNode at hk ⊢
                    have hk2 : st.nodes.find? (fun e => decide (e.1 = k)) = none := by
                      cases hf : st.nodes.find? (fun e => decide (e.1 = k)) with
                      | none => rfl
                      | some e => rw [hf] at hk; simp at hk
                    rw [readNode_eraseP_none _ _ _ hk2]
                    rfl
      | loop pid cur =>
          unfold deleteGo at h
          split at h
          · injection h with h
            subst h
            exact ⟨rfl, rfl, fun k hk => hk⟩
          · split at h
            · cases h
            · rename_i rt hrt
              split at h
              · cases h
              · rename_i st1 hst1
                have h4 := ih _ _ _ hst1
                have h5 := ih _ _ _ h
                exact ⟨h5.1.trans h4.1, h5.2.1.trans h4.2.1,
                       fun k hk => h5.2.2 k (h4.2.2 k hk)⟩

/-- C5 counterexample: in a store where node 1 (a child of the root)
carries session 42, `delete(0, 1)` orphans node 1 and erases its NODES
entry, yet both SESSIONS and RSESSIONS still hold the session of the
removed node afterwards — `delete_helper` never touches the session
indexes. -/
theorem C5_sessions_survive_delete :
    (stSession.bind (fun st => delete 9 st 0 1)).map
        (fun st => (readNode st 1, st.sessions, st.rsessions)) =
      some (none, [(1, 42)], [(42, 1)]) := by
  decide

/-- C5 (amended): `delete` never modifies SESSIONS or RSESSIONS at all —
orphaned nodes keep their session entries, and the SESSIONS/RSESSIONS
pairing is preserved because neither index changes. -/
theorem C5_delete_never_touches_sessions :
    ∀ (P S : Type) (fuel : Nat) (st : Store P S) (pid id : Nat)
      (st' : Store P S), delete fuel st pid id = some st' →
      st'.sessions = st.sessions ∧ st'.rsessions = st.rsessions := by
  intro P S fuel st pid id st' h
  have := deleteGo_preserves fuel st (DelOp.del pid id) st' h
  exact ⟨this.1, this.2.1⟩

theorem hasAnyRt_of_rtLookup (st : Store P S) (c q : Nat) (rt : RTriple)
    (h : getRt st c q = some rt) : hasAnyRt st c = true := by
  unfold hasAnyRt
  rw [List.any_eq_true]
  exact ⟨(c, rt), rtLookup_mem _ _ _ _ h, by simp⟩

theorem no_key_after_erase (R : List (Nat × RTriple)) (id pid : Nat)
    (rt : RTriple)
    (hwf : (R.map (fun e => (e.1, e.2.pid))).Nodup)
    (hop : ∀ e ∈ R, e.1 = id → e.2.pid = pid)
    (hrt : rtLookup R id pid = some rt) :
    (delRlink R id rt).any (fun e => e.1 == id) = false := by
  induction R with
  | nil => cases hrt
  | cons e R2 ih =>
      simp only [List.map_cons, List.nodup_cons] at hwf
      by_cases hex : e = (id, rt)
      · subst hex
        unfold delRlink
        rw [List.eraseP_cons_of_pos (by simp)]
        rw [List.any_eq_false]
        intro x hx
        simp only [beq_iff_eq]
        intro hxid
        have hxp : x.2.pid = pid := hop x (List.mem_cons_of_mem _ hx) hxid
        exact hwf.1 (by
          rw [show ((id, rt).1, (id, rt).2.pid) = (x.1, x.2.pid) by
                simp [hxid, hxp, rtLookup_pid (((id, rt)) :: R2) id pid rt hrt]]
          exact List.mem_map_of_mem _ hx)
      · have hpair : ∀ h1 : e.1 = id, ∀ h2 : e.2 = rt, e = (id, rt) := by
          intro h1 h2
          cases e with
          | mk a b =>
              rw [show a = id from h1, show b = rt from h2]
        have hne1 : e.1 = id → e.2.pid ≠ pid ∨ e.2 ≠ rt := by
          intro h1
          by_cases h2 : e.2 = rt
          · exact absurd (hpair h1 h2) hex
          · exact Or.inr h2
        have hrt2 : rtLookup R2 id pid = some rt ∧ ¬(e.1 = id ∧ e.2.pid = pid) := by
          by_cases hp : e.1 = id ∧ e.2.pid = pid
          · exfalso
            unfold rtLookup at hrt
            rw [List.find?_cons_of_pos _ (by simpa using hp)] at hrt
            simp only [Option.map_some'] at hrt
            cases hrt
            cases hne1 hp.1 with
            | inl h3 => exact h3 hp.2
            | inr h3 => exact h3 rfl
          · constructor
            · unfold rtLookup at hrt ⊢
              rw [List.find?_cons_of_neg _ (by simpa using hp)] at hrt
              exact hrt
            · exact hp
        unfold delRlink
        rw [List.eraseP_cons_of_neg (by
              simp only [decide_eq_true_eq, not_and]
              intro h1 h2
              exact hex (hpair h1 h2))]
        rw [List.any_cons]
        have he1 : (e.1 == id) = false := by
          simp only [beq_eq_false_iff_ne]
          intro h1
          exact hrt2.2 ⟨h1, hop e (List.mem_cons_self _ _) h1⟩
        rw [he1]
        simp only [Bool.false_or]
        exact ih hwf.2 (fun x hx h1 => hop x (List.mem_cons_of_mem _ hx) h1) hrt2.1

theorem modifyRt_rlinks_perm (st st' : Store P S) (a q : Nat)
    (f : RTriple → RTriple) (h : modifyRt st a q f = some st')
    (hf : ∀ t, (f t).pid = t.pid) :
    List.Perm (st'.rlinks.map (fun e => (e.1, e.2.pid)))
      (st.rlinks.map (fun e => (e.1, e.2.pid))) := by
  obtain ⟨rt, hrt, rfl⟩ := exists_of_modifyRt st st' a q f h
  have hmem : (a, rt) ∈ st.rlinks := rtLookup_mem _ _ _ _ hrt
  have hperm : List.Perm ((a, rt) :: delRlink st.rlinks a rt) st.rlinks := by
    unfold delRlink
    apply cons_eraseP_perm
    · exact hmem
    · intro y
      simp only [decide_eq_true_eq]
      constructor
      · intro hy; cases y with | mk y1 y2 => simp at hy; simp [hy.1, hy.2]
      · intro hy; subst hy; exact ⟨rfl, rfl⟩
  have := hperm.map (fun e => (e.1, e.2.pid))
  simp only [List.map_cons] at this
  simpa [hf] using this

theorem onlyParent_modifyRt (st st' : Store P S) (a q id : Nat)
    (f : RTriple → RTriple) (h : modifyRt st a q f = some st')
    (hf : ∀ t, (f t).pid = t.pid)
    (hop : onlyParent st id q = true) :
    onlyParent st' id q = true := by
  obtain ⟨rt, hrt, rfl⟩ := exists_of_modifyRt st st' a q f h
  unfold onlyParent at hop ⊢
  rw [List.all_eq_true] at hop ⊢
  intro x hx
  simp only [List.mem_cons] at hx
  cases hx with
  | inl hx =>
      subst hx
      simp only [hf, Bool.or_eq_true, Bool.not_eq_eq_eq_not, Bool.not_true,
        beq_eq_false_iff_ne, ne_eq, beq_iff_eq]
      by_cases ha : a = id
      · exact Or.inr (by rw [rtLookup_pid _ _ _ _ hrt])
      · exact Or.inl ha
  | inr hx =>
      exact hop x ((st.rlinks.eraseP_sublist).subset hx)

/-- C2: if the deleted node still has a parent other than `pid`, `delete`
leaves its payload, its sibling list and all reverse links under other
parents untouched (the node survives); if `pid` was its only parent, the
node's NODES entry is erased (and, as scenario B shows concretely, its
children cascade only when orphaned: after `delete(0, 1)` in the shared
store, node 3 survives under 2 while node 1 is gone). -/
theorem C2_delete_refcount :
    (∀ (P S : Type) (fuel : Nat) (st : Store P S) (pid id : Nat)
       (st' : Store P S) (pother : Nat) (rt' : RTriple),
       delete fuel st pid id = some st' → pid ≠ id → pother ≠ pid →
       getRt st id pother = some rt' →
         st'.nodes = st.nodes ∧ getChild st' id = getChild st id ∧
         (∀ c, getRt st' c id = getRt st c id) ∧
         getRt st' id pother = some rt') ∧
    (∀ (P S : Type) (fuel : Nat) (st : Store P S) (pid id : Nat)
       (st' : Store P S),
       delete fuel st pid id = some st' → rlinksWf st → nodesWf st →
       onlyParent st id pid = true →
         readNode st' id = none) ∧
    ((stShared.bind (fun st => delete 9 st 0 1)).map
        (fun st => (readNode st 3, readNode st 1, childIds 9 st 2,
                    childIds 9 st 0)) =
      some (some 3, none, some [3], some [2])) := by
  refine ⟨?_, ?_, by decide⟩
  · -- survival
    intro P S fuel st pid id st' pother rt' h hpidid hpother hrt'
    cases fuel with
    | zero => cases h
    | succ f =>
        unfold delete deleteGo at h
        simp only [] at h
        split at h
        · cases h
        · rename_i rt hrt0
          split at h
          · cases h
          · rename_i st1 heq1
            split at h
            · cases h
            · rename_i st2 heq2
              have hfacts1 : (∀ c q2, q2 ≠ pid → getRt st1 c q2 = getRt st c q2) ∧
                  linksLookup st1.links id = linksLookup st.links id ∧
                  st1.nodes = st.nodes := by
                split at heq1
                · have hk := modifyRt_keeps _ _ _ _ _ heq1
                  refine ⟨?_, ?_, hk.2.1⟩
                  · intro c q2 hq2
                    have hfr := getRt_modifyRt_ne _ _ _ _ c q2 _ heq1 (fun t => rfl)
                      (Or.inr hq2)
                    exact hfr
                  · rw [hk.1]
                    exact linksLookup_delKV_ne _ _ _ _ (Ne.symm hpidid)
                · split at heq1
                  · injection heq1 with heq1
                    subst heq1
                    refine ⟨fun c q2 _ => rfl, ?_, rfl⟩
                    rw [linksLookup_cons_ne _ _ _ _ (Ne.symm hpidid)]
                    exact linksLookup_delKV_ne _ _ _ _ (Ne.symm hpidid)
                  · injection heq1 with heq1
                    subst heq1
                    exact ⟨fun c q2 _ => rfl,
                      linksLookup_delKV_ne _ _ _ _ (Ne.symm hpidid), rfl⟩
              have hfacts2 : (∀ c q2, q2 ≠ pid → getRt st2 c q2 = getRt st1 c q2) ∧
                  st2.links = st1.links ∧ st2.nodes = st1.nodes := by
                split at heq2
                · have hk := modifyRt_keeps _ _ _ _ _ heq2
                  refine ⟨?_, hk.1, hk.2.1⟩
                  intro c q2 hq2
                  have hfr := getRt_modifyRt_ne _ _ _ _ c q2 _ heq2 (fun t => rfl)
                    (Or.inr hq2)
                  exact hfr
                · injection heq2 with heq2
                  subst heq2
                  exact ⟨fun c q2 _ => rfl, rfl, rfl⟩
              cases f with
              | zero => cases h
              | succ f2 =>
                  unfold deleteGo at h
                  simp only [] at h
                  split at h
                  · cases h
                  · rename_i rt2 hrt2
                    have hpid2 : rt2.pid = pid := rtLookup_pid _ _ _ _ hrt2
                    have hoth2 : getRt st2 id pother = some rt' := by
                      rw [hfacts2.1 id pother hpother,
                          hfacts1.1 id pother hpother]
                      exact hrt'
                    have hsurv : getRt
                        ({ st2 with rlinks := delRlink st2.rlinks id rt2 } :
                          Store P S) id pother = some rt' := by
                      show rtLookup (delRlink st2.rlinks id rt2) id pother =
                        some rt'
                      rw [rtLookup_delRlink_ne _ _ _ _ _
                        (Or.inr (by rw [hpid2]; exact hpother))]
                      exact hoth2
                    split at h
                    · -- node survives
                      injection h with h
                      subst h
                      refine ⟨hfacts2.2.2.trans hfacts1.2.2, ?_, ?_, hsurv⟩
                      · show linksLookup st2.links id = getChild st id
                        rw [hfacts2.2.1]
                        exact hfacts1.2.1
                      · intro c
                        show rtLookup (delRlink st2.rlinks id rt2) c id =
                          getRt st c id
                        rw [rtLookup_delRlink_ne _ _ _ _ _
                          (Or.inr (by rw [hpid2]; exact Ne.symm hpidid))]
                        exact (hfacts2.1 c id (Ne.symm hpidid)).trans
                          (hfacts1.1 c id (Ne.symm hpidid))
                    · rename_i hany
                      exact absurd (hasAnyRt_of_rtLookup _ _ _ _ hsurv) hany
  · -- orphan erasure
    intro P S fuel st pid id st' h hwf hnwf hop
    cases fuel with
    | zero => cases h
    | succ f =>
        unfold delete deleteGo at h
        simp only [] at h
        split at h
        · cases h
        · rename_i rt hrt0
          split at h
          · cases h
          · rename_i st1 heq1
            split at h
            · cases h
            · rename_i st2 heq2
              have hfacts1 : rlinksWf st1 ∧ onlyParent st1 id pid = true ∧
                  st1.nodes = st.nodes := by
                split at heq1
                · have hperm := modifyRt_rlinks_perm _ _ _ _ _ heq1 (fun t => rfl)
                  have hop1 := onlyParent_modifyRt _ _ _ _ id _ heq1 (fun t => rfl) hop
                  exact ⟨(hperm.symm.nodup hwf : rlinksWf st1), hop1,
                    (modifyRt_keeps _ _ _ _ _ heq1).2.1⟩
                · split at heq1
                  · injection heq1 with heq1
                    subst heq1
                    exact ⟨hwf, hop, rfl⟩
                  · injection heq1 with heq1
                    subst heq1
                    exact ⟨hwf, hop, rfl⟩
              have hfacts2 : rlinksWf st2 ∧ onlyParent st2 id pid = true ∧
                  st2.nodes = st.nodes := by
                split at heq2
                · have hperm := modifyRt_rlinks_perm _ _ _ _ _ heq2 (fun t => rfl)
                  have hop2 := onlyParent_modifyRt _ _ _ _ id _ heq2 (fun t => rfl) hfacts1.2.1
                  exact ⟨(hperm.symm.nodup hfacts1.1 : rlinksWf st2), hop2,
                    (modifyRt_keeps _ _ _ _ _ heq2).2.1.trans hfacts1.2.2⟩
                · injection heq2 with heq2
                  subst heq2
                  exact ⟨hfacts1.1, hfacts1.2.1, hfacts1.2.2⟩
              cases f with
              | zero => cases h
              | succ f2 =>
                  unfold deleteGo at h
                  simp only [] at h
                  split at h
                  · cases h
                  · rename_i rt2 hrt2
                    have hnone : (delRlink st2.rlinks id rt2).any
                        (fun e => e.1 == id) = false := by
                      apply no_key_after_erase st2.rlinks id pid rt2 hfacts2.1
                      · intro e he h1
                        have := List.all_eq_true.1 hfacts2.2.1 e he
                        simp only [Bool.or_eq_true, Bool.not_eq_eq_eq_not,
                          Bool.not_true, beq_eq_false_iff_ne, ne_eq,
                          beq_iff_eq] at this
                        cases this with
                        | inl h2 => exact absurd h1 h2
                        | inr h2 => exact h2
                      · exact hrt2
                    split at h
                    · rename_i hany
                      have hc : (delRlink st2.rlinks id rt2).any
                          (fun e => e.1 == id) = true := hany
                      rw [hnone] at hc
                      cases hc
                    · have hfind : (st2.nodes.eraseP
                          (fun e => decide (e.1 = id))).find?
                            (fun e => decide (e.1 = id)) = none := by
                        rw [hfacts2.2.2]
                        exact find?_none_of_eraseP_nodupkey id st.nodes hnwf
                      split at h
                      · injection h with h
                        subst h
                        show Option.map (fun e => e.2) ((st2.nodes.eraseP
                          (fun e => decide (e.1 = id))).find?
                            (fun e => decide (e.1 = id))) = none
                        rw [hfind]
                        rfl
                      · split at h
                        · cases h
                        · rename_i frt hfrt
                          split at h
                          · cases h
                          · rename_i st4 hst4
                            have h4 := (deleteGo_preserves _ _ _ _ hst4).2.2
                            have h5 := (deleteGo_preserves _ _ _ _ h).2.2
                            apply h5
                            apply h4
                            show Option.map (fun e => e.2) ((st2.nodes.eraseP
                              (fun e => decide (e.1 = id))).find?
                                (fun e => decide (e.1 = id))) = none
                            rw [hfind]
                            rfl

/-- C4: `add_child(parent, payload)` allocates the current ID_SEQ value as
the new id, increments ID_SEQ, stores the payload, and inserts the new
node at the head of the parent's sibling DLL with `{parent, next = old
head, prev = 0}`, updating the old head's `prev` to the new id.  On a
fresh store, adding `"one"` under 0 yields id 1 and adding `"two"` under
1 yields id 2, with `children(0) = [(1, "one")]` and
`children(1) = [(2, "two")]`. -/
theorem C4_addChild_head_insert :
    (∀ (P S : Type) (st : Store P S) (pid : Nat) (data : P) (id : Nat)
       (st' : Store P S),
       addChild st pid data = some (id, st') →
       (getChild st pid).getD 0 ≠ st.id →
         id = st.id ∧ st'.id = st.id + 1 ∧
         getChild st' pid = some st.id ∧
         getRt st' st.id pid = some ⟨pid, (getChild st pid).getD 0, 0⟩ ∧
         readNode st' st.id = some data ∧
         (∀ rt₀, getRt st ((getChild st pid).getD 0) pid = some rt₀ →
           (getChild st pid).getD 0 > 0 →
           getRt st' ((getChild st pid).getD 0) pid =
             some { rt₀ with prev := st.id })) ∧
    ((addChild (createBase "/" : Store String Nat) 0 "one").bind (fun r1 =>
        (addChild r1.2 1 "two").map (fun r2 => (r1.1, r2.1))) =
      some (1, 2) ∧
     stNames.map (fun st => (childrenL 9 st 0, childrenL 9 st 1)) =
      some (some [(1, "one")], some [(2, "two")])) := by
  constructor
  · intro P S st pid data id st' h hfresh
    unfold addChild at h
    simp only [] at h
    split at h
    · cases h
    · rename_i st3 heq3
      injection h with h2
      injection h2 with hid hst
      subst hid
      subst hst
      by_cases hnext : (getChild st pid).getD 0 > 0
      · rw [if_pos hnext] at heq3
        have hk := modifyRt_keeps _ _ _ _ _ heq3
        refine ⟨rfl, by rw [hk.2.2.2.2], ?_, ?_, ?_, ?_⟩
        · show linksLookup st3.links pid = some st.id
          rw [hk.1]
          exact linksLookup_cons_self _ _ _
        · show rtLookup st3.rlinks st.id pid =
            some ⟨pid, (getChild st pid).getD 0, 0⟩
          have hfr := getRt_modifyRt_ne _ _ _ _ st.id pid _ heq3
            (fun t => rfl) (Or.inl (Ne.symm hfresh))
          rw [show getRt st3 st.id pid = rtLookup st3.rlinks st.id pid
            from rfl] at hfr
          rw [hfr]
          exact rtLookup_cons_self _ _ _ _ rfl
        · show Option.map (fun e => e.2)
            (((st.id, data) :: st3.nodes).find?
              (fun e => decide (e.1 = st.id))) = some data
          rw [List.find?_cons_of_pos _ (by simp)]
          rfl
        · intro rt₀ hrt₀ _
          show rtLookup st3.rlinks ((getChild st pid).getD 0) pid =
            some { rt₀ with prev := st.id }
          have hbase : getRt
              ({ st with
                  links := (pid, st.id) :: delLinksKey st.links pid,
                  rlinks := ((st.id : Nat), (⟨pid, (getChild st pid).getD 0, 0⟩ : RTriple)) ::
                    st.rlinks } : Store P S)
              ((getChild st pid).getD 0) pid = some rt₀ := by
            show rtLookup (((st.id : Nat),
              (⟨pid, (getChild st pid).getD 0, 0⟩ : RTriple)) :: st.rlinks)
              ((getChild st pid).getD 0) pid = some rt₀
            rw [rtLookup_cons_ne _ _ _ _ _ (Or.inl hfresh)]
            exact hrt₀
          have := getRt_modifyRt_self _ _ _ _ _ _ hbase heq3 (fun t => rfl)
          exact this
      · rw [if_neg hnext] at heq3
        injection heq3 with heq3
        subst heq3
        refine ⟨rfl, rfl, ?_, ?_, ?_, ?_⟩
        · exact linksLookup_cons_self _ _ _
        · exact rtLookup_cons_self _ _ _ _ rfl
        · show Option.map (fun e => e.2)
            (((st.id, data) :: _).find? (fun e => decide (e.1 = st.id))) =
              some data
          rw [List.find?_cons_of_pos _ (by simp)]
          rfl
        · intro rt₀ _ hpos
          exact absurd hpos hnext
  · exact ⟨by decide, by decide⟩

theorem charBytes_pos (c : Char) : 0 < charBytes c := by
  unfold charBytes
  split_ifs <;> omega

theorem utf8Length_pos (cs : List Char) (h : cs ≠ []) : 0 < utf8Length cs := by
  cases cs with
  | nil => exact absurd rfl h
  | cons c rest =>
      unfold utf8Length
      simp only [List.map_cons, List.sum_cons]
      have := charBytes_pos c
      omega

/-- C9 counterexample: `wrap_text("", 1)` returns `[0]`, not `[]` as the
claim states; and in `wrap_text("ab ", 5)` the trailing space does not
become its own wrapped line (the whole text is the single line
`[0, 3]`). -/
theorem C9_wrap_empty_not_nil :
    wrapText [] 1 = [0] ∧ ([0] : List Nat) ≠ [] ∧
    wrapText ("ab ".toList) 5 = [0, 3] := by
  exact ⟨by decide, by decide, by decide⟩

/-- C9 (amended): `wrap_text(text, 0) = [0, 0]` for every text; the empty
string wraps to the single split `[0]` for every positive width (and to
`[0, 0]` at width 0); trailing whitespace is preserved in the wrap — the
final split always lands on `text.len()`, so trailing spaces are kept in
the output, and when the preceding content fills its line they form their
own line, as in `wrap_text(" ### ", 3) = [0, 1, 4, 5]` whose last pair is
the trailing-space line `" "`. -/
theorem C9_wrap_edge_cases :
    (∀ cs : List Char, wrapText cs 0 = [0, 0]) ∧
    (∀ w : Nat, 0 < w → wrapText [] w = [0]) ∧
    (∀ (cs : List Char) (w : Nat), 0 < w → cs ≠ [] →
       (wrapText cs w).getLast? = some (utf8Length cs)) ∧
    wrapText (" ### ".toList) 3 = [0, 1, 4, 5] := by
  refine ⟨fun cs => rfl, ?_, ?_, by decide⟩
  · intro w hw
    unfold wrapText enumChars wrapGo wrapStep
    rw [if_neg (by omega)]
    simp [utf8Length, Nat.zero_mod, wrapGo]
  · intro cs w hw h
    unfold wrapText
    rw [if_neg (by omega)]
    by_cases hc : 0 < utf8Length cs ∧
        (wrapGo w (enumChars cs 0 0)
          ⟨[], 0, 0, 0, false, false, 0⟩).splits.getLast? ≠
          some (utf8Length cs)
    · rw [if_pos hc]
      exact List.getLast?_concat _
    · rw [if_neg hc]
      push_neg at hc
      exact hc (utf8Length_pos cs h)

/-- C8 counterexample: with today = Wed 2024-05-15, parsing
`"3pm to 01/04/2025 2pm"` (bare time to datetime) yields a session whose
start is *today* at 15:00 — not the datetime's date 2025-04-01 at 15:00
as the claim states. -/
theorem C8_time_to_datetime_uses_today :
    parseSession ⟨2024, 5, 15⟩ ("3pm to 01/04/2025 2pm".toList) =
      some ⟨⟨⟨2024, 5, 15⟩, ⟨15, 0⟩⟩, ⟨⟨2025, 4, 1⟩, ⟨14, 0⟩⟩⟩ ∧
    (⟨⟨2024, 5, 15⟩, ⟨15, 0⟩⟩ : NDateTime) ≠ ⟨⟨2025, 4, 1⟩, ⟨15, 0⟩⟩ := by
  exact ⟨by decide, by decide⟩

/-- C8 (amended): in a `"datetime to time"` session the bare end time
takes the datetime's date; in a `"time to datetime"` session the bare
start time takes *today's* date (not the datetime's); in a
`"time to time"` session both endpoints take today's date.  This holds
for every value of today. -/
theorem C8_mixed_session_dates :
    ∀ today : NDate,
      parseSession today ("01/04/2025 2pm to 3pm".toList) =
        some ⟨⟨⟨2025, 4, 1⟩, ⟨14, 0⟩⟩, ⟨⟨2025, 4, 1⟩, ⟨15, 0⟩⟩⟩ ∧
      parseSession today ("3pm to 01/04/2025 2pm".toList) =
        some ⟨⟨today, ⟨15, 0⟩⟩, ⟨⟨2025, 4, 1⟩, ⟨14, 0⟩⟩⟩ ∧
      parseSession today ("3pm to 5pm".toList) =
        some ⟨⟨today, ⟨15, 0⟩⟩, ⟨today, ⟨17, 0⟩⟩⟩ := by
  intro today
  exact ⟨rfl, rfl, rfl⟩

theorem insertBy_perm {α : Type} (le : α → α → Bool) (x : α) (l : List α) :
    List.Perm (insertBy le x l) (x :: l) := by
  induction l with
  | nil => exact List.Perm.refl _
  | cons y ys ih =>
      unfold insertBy
      by_cases hle : le y x = true
      · rw [if_pos hle]
        exact (ih.cons y).trans (List.Perm.swap x y ys)
      · rw [if_neg hle]

theorem sortBy_perm {α : Type} (le : α → α → Bool) (l : List α) :
    List.Perm (sortBy le l) l := by
  induction l with
  | nil => exact List.Perm.refl _
  | cons x xs ih =>
      unfold sortBy
      exact (insertBy_perm le x (sortBy le xs)).trans (ih.cons x)

theorem rowSumB_append (l m : List (FNodeB S)) :
    rowSumB (l ++ m) = rowSumB l + rowSumB m := by
  unfold rowSumB
  rw [List.map_append, List.sum_append]

theorem step_inv (H : Nat) (b : FlatTreeBuilder S)
    (h1 : b.height = H) (h2 : b.filled ≤ H)
    (h3 : b.filled = rowSumB b.fnodes) :
    (b.step).2.height = H ∧ (b.step).2.filled ≤ H ∧
      (b.step).2.filled = rowSumB (b.step).2.fnodes := by
  unfold FlatTreeBuilder.step
  cases hq : b.queue with
  | nil =>
      simp only []
      by_cases hs : b.start = b.fnodes.length
      · rw [if_pos hs]
        exact ⟨h1, h2, h3⟩
      · rw [if_neg hs]
        exact ⟨h1, h2, h3⟩
  | cons children qrest =>
      simp only []
      cases hi : children.iter with
      | nil =>
          simp only []
          exact ⟨h1, h2, h3⟩
      | cons child more =>
          simp only []
          by_cases hov : b.filled + (child.splits.length - 1) > b.height
          · rw [if_pos hov]
            exact ⟨h1, h2, h3⟩
          · rw [if_neg hov]
            refine ⟨h1, ?_, ?_⟩
            · show b.filled + (child.splits.length - 1) ≤ H
              omega
            · show b.filled + (child.splits.length - 1) =
                rowSumB (b.fnodes ++ [⟨child, _⟩])
              rw [rowSumB_append, ← h3]
              unfold rowSumB
              simp

theorem refillGo_inv (dec : P → Option NodeData) (st : Store P S)
    (width fuel : Nat) :
    ∀ (l : List Nat) (b : FlatTreeBuilder S) (seen : List Nat)
      (b2 : FlatTreeBuilder S) (seen2 : List Nat),
      refillGo dec st width fuel l b seen = some (b2, seen2) →
      b2.fnodes = b.fnodes ∧ b2.filled = b.filled ∧ b2.height = b.height := by
  intro l
  induction l with
  | nil =>
      intro b seen b2 seen2 h
      unfold refillGo at h
      injection h with h
      injection h with h1 h2
      subst h1
      exact ⟨rfl, rfl, rfl⟩
  | cons i rest ih =>
      intro b seen b2 seen2 h
      unfold refillGo at h
      simp only [] at h
      split at h
      · exact ih b seen b2 seen2 h
      · split at h
        · cases h
        · rename_i children hch
          have := ih _ _ _ _ h
          unfold FlatTreeBuilder.fill at this
          exact this

theorem buildLoop_sum (dec : P → Option NodeData) (st : Store P S)
    (width H : Nat) :
    ∀ (fuel : Nat) (b : FlatTreeBuilder S) (seen : List Nat)
      (ns : List (NodeF S)),
      buildLoop dec st width fuel b seen = some ns →
      b.height = H → b.filled ≤ H → b.filled = rowSumB b.fnodes →
      rowSum ns ≤ H := by
  intro fuel
  induction fuel with
  | zero => intro b seen ns h; cases h
  | succ fuel ih =>
      intro b seen ns h h1 h2 h3
      unfold buildLoop at h
      have hinv := step_inv H b h1 h2 h3
      split at h
      · rename_i b1 hstep
        rw [hstep] at hinv
        exact ih b1 seen ns h hinv.1 hinv.2.1 hinv.2.2
      · rename_i b1 hstep
        rw [hstep] at hinv
        injection h with h
        subst h
        unfold FlatTreeBuilder.finish
        have hperm := (sortBy_perm
          (fun l r => pathLe l.path r.path) b1.fnodes).map
          (fun f => f.node.splits.length - 1)
        have hsum : rowSum ((sortBy (fun l r => pathLe l.path r.path)
            b1.fnodes).map (fun f => f.node)) = rowSumB b1.fnodes := by
          unfold rowSum rowSumB
          rw [List.map_map]
          exact hperm.sum_eq
        rw [hsum, ← hinv.2.2]
        exact hinv.2.1
      · rename_i b1 hstep
        rw [hstep] at hinv
        split at h
        · cases h
        · rename_i b2 seen2 hr
          have hrg := refillGo_inv dec st width fuel _ _ _ _ _ hr
          apply ih _ _ _ h
          · show b2.height = H
            rw [hrg.2.2, hinv.1]
          · show b2.filled ≤ H
            rw [hrg.2.1]; exact hinv.2.1
          · show b2.filled = rowSumB b2.fnodes
            rw [hrg.2.1, hrg.1]; exact hinv.2.2

/-- C7: the flat-tree build never overflows the viewport: whenever
`build_flattree` succeeds, the total of the row heights
(`splits.len() - 1`) of the returned nodes is at most the display height
H — the builder returns `Done` rather than accept a child that would push
the filled row count past H — and when the root's own name wrap height
alone exceeds H, the result is the empty list. -/
theorem C7_flattree_height_bound :
    (∀ (P S : Type) (fuel : Nat) (dec : P → Option NodeData)
       (st : Store P S) (id H W : Nat) (ns : List (NodeF S)),
       buildFlattree fuel dec st id H W = some ns → rowSum ns ≤ H) ∧
    (∀ (P S : Type) (fuel : Nat) (dec : P → Option NodeData)
       (st : Store P S) (id H W : Nat) (payload : P) (nd : NodeData),
       1 < W → readNode st id = some payload → dec payload = some nd →
       (wrapText nd.name (W - 1)).length - 1 > H →
       buildFlattree fuel dec st id H W = some []) := by
  constructor
  · intro P S fuel dec st id H W ns h
    unfold buildFlattree at h
    split at h
    · injection h with h
      subst h
      simp [rowSum]
    · split at h
      · cases h
      · rename_i payload hread
        split at h
        · cases h
        · rename_i nd hdec
          simp only [] at h
          split at h
          · injection h with h
            subst h
            simp [rowSum]
          · rename_i hroot
            apply buildLoop_sum dec st W H fuel _ _ _ h
            · rfl
            · show (wrapText nd.name (W - 1)).length - 1 ≤ H
              omega
            · show (wrapText nd.name (W - 1)).length - 1 = rowSumB _
              unfold rowSumB FlatTreeBuilder.init
              simp
  · intro P S fuel dec st id H W payload nd hW hread hdec hover
    unfold buildFlattree
    rw [if_neg (by omega)]
    rw [hread]
    simp only []
    rw [hdec]
    simp only []
    rw [if_pos hover]

/-!  Lemmas about well-formed DLL segments, used for the sibling-move
round trip. -/

theorem getLastD_default_irrel (l : List Nat) (h : l ≠ []) (d d2 : Nat) :
    l.getLastD d = l.getLastD d2 := by
  cases l with
  | nil => exact absurd rfl h
  | cons x xs => rw [List.getLastD_cons, List.getLastD_cons]

theorem seg_ne_zero (st : Store P S) (p : Nat) :
    ∀ (cs : List Nat) (prev after : Nat), seg st p prev cs after = true →
      ∀ c ∈ cs, c ≠ 0 := by
  intro cs
  induction cs with
  | nil => intro prev after _ c hc; cases hc
  | cons x rest ih =>
      intro prev after h c hc
      unfold seg at h
      rw [Bool.and_eq_true, Bool.and_eq_true] at h
      cases hc with
      | head => exact of_decide_eq_true h.1.1
      | tail _ hc2 => exact ih x after h.2 c hc2

theorem seg_frame (st st' : Store P S) (p : Nat) :
    ∀ (cs : List Nat) (prev after : Nat), seg st p prev cs after = true →
      (∀ c ∈ cs, getRt st' c p = getRt st c p) →
      seg st' p prev cs after = true := by
  intro cs
  induction cs with
  | nil => intro prev after _ _; rfl
  | cons x rest ih =>
      intro prev after h hfr
      unfold seg at h ⊢
      rw [Bool.and_eq_true, Bool.and_eq_true] at h
      rw [Bool.and_eq_true, Bool.and_eq_true]
      refine ⟨⟨h.1.1, ?_⟩, ?_⟩
      · rw [decide_eq_true_eq, hfr x (List.mem_cons_self _ _)]
        exact of_decide_eq_true h.1.2
      · exact ih x after h.2 (fun c hc => hfr c (List.mem_cons_of_mem _ hc))

theorem seg_cons (st : Store P S) (p prev c after : Nat) (rest : List Nat) :
    seg st p prev (c :: rest) after =
      (decide (c ≠ 0) &&
       decide (getRt st c p = some ⟨p, rest.headD after, prev⟩) &&
       seg st p c rest after) := rfl

theorem headD_append_general (l m : List Nat) (d : Nat) :
    (l ++ m).headD d = l.headD (m.headD d) := by
  cases l with
  | nil => rfl
  | cons x xs => rfl

theorem seg_append (st : Store P S) (p : Nat) :
    ∀ (as bs : List Nat) (prev after : Nat),
      seg st p prev (as ++ bs) after =
        (seg st p prev as (bs.headD after) &&
         seg st p (as.getLastD prev) bs after) := by
  intro as
  induction as with
  | nil =>
      intro bs prev after
      show seg st p prev bs after = (true && seg st p prev bs after)
      rw [Bool.true_and]
  | cons x rest ih =>
      intro bs prev after
      rw [List.cons_append, seg_cons, seg_cons, ih bs x after,
          List.getLastD_cons, headD_append_general, ← Bool.and_assoc]

theorem seg_getLast (st : Store P S) (p : Nat) :
    ∀ (ls : List Nat) (prev after : Nat), seg st p prev ls after = true →
      ls ≠ [] → ∃ q2, getRt st (ls.getLastD 0) p = some ⟨p, after, q2⟩ := by
  intro ls
  induction ls with
  | nil => intro prev after _ hne; exact absurd rfl hne
  | cons x rest ih =>
      intro prev after h _
      rw [seg_cons, Bool.and_eq_true, Bool.and_eq_true] at h
      cases hrest : rest with
      | nil =>
          refine ⟨prev, ?_⟩
          have := of_decide_eq_true h.1.2
          rw [hrest] at this
          simpa using this
      | cons z zs =>
          subst hrest
          have := ih x after h.2 (by simp)
          simpa only [List.getLastD_cons] using this

theorem seg_retarget (st st' : Store P S) (p : Nat) :
    ∀ (l : List Nat) (prev after after2 : Nat),
      seg st p prev l after = true →
      (∀ c ∈ l.dropLast, getRt st' c p = getRt st c p) →
      (∀ t, getRt st (l.getLastD 0) p = some t →
        getRt st' (l.getLastD 0) p = some { t with next := after2 }) →
      seg st' p prev l after2 = true := by
  intro l
  induction l with
  | nil => intro prev after after2 _ _ _; rfl
  | cons x rest ih =>
      intro prev after after2 h h1 h2
      rw [seg_cons, Bool.and_eq_true, Bool.and_eq_true] at h
      rw [seg_cons, Bool.and_eq_true, Bool.and_eq_true]
      cases hrest : rest with
      | nil =>
          subst hrest
          refine ⟨⟨h.1.1, ?_⟩, rfl⟩
          rw [decide_eq_true_eq]
          have hold := of_decide_eq_true h.1.2
          have := h2 _ (by simpa using hold)
          simpa using this
      | cons z zs =>
          subst hrest
          refine ⟨⟨h.1.1, ?_⟩, ?_⟩
          · rw [decide_eq_true_eq]
            rw [h1 x (by simp)]
            simpa using of_decide_eq_true h.1.2
          · refine ih x after after2 h.2
              (fun c hc => h1 c (List.mem_cons_of_mem _ hc)) ?_
            intro t ht
            have h22 := h2 t (by simpa only [List.getLastD_cons] using ht)
            simpa only [List.getLastD_cons] using h22

theorem seg_reprev (st st' : Store P S) (p : Nat)
    (r : List Nat) (prev prev2 after : Nat)
    (h : seg st p prev r after = true)
    (h1 : ∀ c ∈ r.tail, getRt st' c p = getRt st c p)
    (h2 : ∀ t, getRt st (r.headD 0) p = some t →
      getRt st' (r.headD 0) p = some { t with prev := prev2 }) :
    seg st' p prev2 r after = true := by
  cases r with
  | nil => rfl
  | cons x rest =>
      unfold seg at h ⊢
      rw [Bool.and_eq_true, Bool.and_eq_true] at h
      rw [Bool.and_eq_true, Bool.and_eq_true]
      refine ⟨⟨h.1.1, ?_⟩, ?_⟩
      · rw [decide_eq_true_eq]
        have := h2 _ (by simpa using of_decide_eq_true h.1.2)
        simpa using this
      · exact seg_frame st st' p rest x after h.2 (by simpa using h1)

theorem walkFrom_seg (st : Store P S) (p : Nat) :
    ∀ (cs : List Nat) (prev : Nat), seg st p prev cs 0 = true →
      walkFrom (cs.length + 1) st p (cs.headD 0) = some cs := by
  intro cs
  induction cs with
  | nil => intro prev _; rfl
  | cons x rest ih =>
      intro prev h
      unfold seg at h
      rw [Bool.and_eq_true, Bool.and_eq_true] at h
      have hx0 := of_decide_eq_true h.1.1
      have hrt := of_decide_eq_true h.1.2
      show walkFrom (rest.length + 1 + 1) st p x = some (x :: rest)
      unfold walkFrom
      rw [if_neg hx0, hrt]
      simp only []
      rw [ih x h.2]

theorem dllOk_childIds (st : Store P S) (p : Nat) (cs : List Nat)
    (h : dllOk st p cs = true) :
    childIds (cs.length + 1) st p = some cs := by
  unfold dllOk at h
  rw [Bool.and_eq_true] at h
  unfold childIds
  rw [of_decide_eq_true h.1]
  exact walkFrom_seg st p cs 0 h.2

theorem seg_head (st : Store P S) (p : Nat) (r : List Nat)
    (prev after : Nat) (h : seg st p prev r after = true) (hne : r ≠ []) :
    getRt st (r.headD 0) p = some ⟨p, r.tail.headD after, prev⟩ := by
  cases r with
  | nil => exact absurd rfl hne
  | cons x rest =>
      rw [seg_cons, Bool.and_eq_true, Bool.and_eq_true] at h
      exact of_decide_eq_true h.1.2

theorem headD_mem (r : List Nat) (d : Nat) (h : r ≠ []) : r.headD d ∈ r := by
  cases r with
  | nil => exact absurd rfl h
  | cons x rest => exact List.mem_cons_self _ _

theorem nodup_dropLast_ne_getLastD (l : List Nat) (hnd : l.Nodup) :
    ∀ d, ∀ c ∈ l.dropLast, c ≠ l.getLastD d := by
  induction l with
  | nil => intro d c hc; cases hc
  | cons x xs ih =>
      intro d c hc
      rw [List.nodup_cons] at hnd
      cases hxs : xs with
      | nil =>
          subst hxs
          cases hc
      | cons y ys =>
          subst hxs
          rw [List.dropLast_cons_of_ne_nil (by simp)] at hc
          rw [List.getLastD_cons]
          cases List.mem_cons.1 hc with
          | inl hcx =>
              subst hcx
              intro he
              exact hnd.1 (he ▸ getLastD_mem_of_ne_nil _ (by simp) c)
          | inr hc2 => exact ih hnd.2 x c hc2

theorem lastD_nil_iff (st : Store P S) (p : Nat) (l : List Nat) (after : Nat)
    (hseg : seg st p 0 l after = true) (h : l.getLastD 0 = 0) : l = [] := by
  cases hl : l with
  | nil => rfl
  | cons x xs =>
      exfalso
      subst hl
      exact seg_ne_zero st p _ _ _ hseg _
        (getLastD_mem_of_ne_nil _ (by simp) 0) h

theorem headD_nil_iff (st : Store P S) (p : Nat) (r : List Nat) (prev : Nat)
    (hseg : seg st p prev r 0 = true) (h : r.headD 0 = 0) : r = [] := by
  cases hr : r with
  | nil => rfl
  | cons x xs =>
      exfalso
      subst hr
      exact seg_ne_zero st p _ _ _ hseg _ (List.mem_cons_self _ _) h

theorem dll_rebuild (st st4 : Store P S) (p : Nat) (l r : List Nat)
    (a b : Nat)
    (hsegl : seg st p 0 l a = true)
    (hsegr : seg st p b r 0 = true)
    (ha0 : a ≠ 0) (hb0 : b ≠ 0)
    (hframe : ∀ c, c ∈ l.dropLast ∨ c ∈ r.tail →
      getRt st4 c p = getRt st c p)
    (hlast : l ≠ [] → ∀ t, getRt st (l.getLastD 0) p = some t →
      getRt st4 (l.getLastD 0) p = some { t with next := b })
    (hrtb4 : getRt st4 b p = some ⟨p, a, l.getLastD 0⟩)
    (hrta4 : getRt st4 a p = some ⟨p, r.headD 0, b⟩)
    (hhead4 : (getChild st4 p).getD 0 = (l ++ b :: a :: r).headD 0)
    (hreprev : r ≠ [] → ∀ t, getRt st (r.headD 0) p = some t →
      getRt st4 (r.headD 0) p = some { t with prev := a }) :
    dllOk st4 p (l ++ b :: a :: r) = true := by
  unfold dllOk
  rw [Bool.and_eq_true]
  refine ⟨decide_eq_true hhead4, ?_⟩
  rw [seg_append, Bool.and_eq_true]
  constructor
  · show seg st4 p 0 l ((b :: a :: r).headD 0) = true
    cases hl : l with
    | nil => rfl
    | cons x l2 =>
        subst hl
        exact seg_retarget st st4 p (x :: l2) 0 a b hsegl
          (fun c hc => hframe c (Or.inl hc)) (hlast (by simp))
  · rw [seg_cons, Bool.and_eq_true, Bool.and_eq_true]
    refine ⟨⟨decide_eq_true hb0, decide_eq_true ?_⟩, ?_⟩
    · exact hrtb4
    · rw [seg_cons, Bool.and_eq_true, Bool.and_eq_true]
      refine ⟨⟨decide_eq_true ha0, decide_eq_true hrta4⟩, ?_⟩
      cases hr : r with
      | nil => rfl
      | cons n2 r2 =>
          subst hr
          exact seg_reprev st st4 p (n2 :: r2) b a 0 hsegr
            (fun c hc => hframe c (Or.inr hc)) (hreprev (by simp))

theorem swap_facts (st : Store P S) (p : Nat) (l r : List Nat) (a b : Nat)
    (hsegl : seg st p 0 l a = true)
    (hsegr : seg st p b r 0 = true)
    (hnd : (l ++ a :: b :: r).Nodup)
    (ha0 : a ≠ 0) (hb0 : b ≠ 0) :
    a ≠ b ∧ l.getLastD 0 ≠ a ∧ l.getLastD 0 ≠ b ∧ r.headD 0 ≠ a ∧
    r.headD 0 ≠ b ∧
    (l.getLastD 0 ≠ 0 → r.headD 0 ≠ 0 → l.getLastD 0 ≠ r.headD 0) ∧
    (∀ c, c ∈ l.dropLast ∨ c ∈ r.tail →
      c ≠ a ∧ c ≠ b ∧ c ≠ l.getLastD 0 ∧ c ≠ r.headD 0) := by
  rw [List.nodup_append] at hnd
  obtain ⟨hndl, hndx, hdisj⟩ := hnd
  rw [List.nodup_cons, List.nodup_cons] at hndx
  obtain ⟨hax, hbr, hrnd⟩ := hndx
  have hab : a ≠ b := fun he => hax (he ▸ List.mem_cons_self _ _)
  have har : a ∉ r := fun hm => hax (List.mem_cons_of_mem _ hm)
  have hppmem : l.getLastD 0 ≠ 0 → l.getLastD 0 ∈ l := by
    intro h0
    have hlne : l ≠ [] := fun he => h0 (by rw [he]; rfl)
    exact getLastD_mem_of_ne_nil l hlne 0
  have hnmem : r.headD 0 ≠ 0 → r.headD 0 ∈ r := by
    intro h0
    have hrne : r ≠ [] := fun he => h0 (by rw [he]; rfl)
    exact headD_mem r 0 hrne
  have hppa : l.getLastD 0 ≠ a := by
    by_cases h0 : l.getLastD 0 = 0
    · rw [h0]; exact fun he => ha0 he.symm
    · exact fun he => hdisj (hppmem h0) (he ▸ List.mem_cons_self _ _)
  have hppb : l.getLastD 0 ≠ b := by
    by_cases h0 : l.getLastD 0 = 0
    · rw [h0]; exact fun he => hb0 he.symm
    · exact fun he => hdisj (hppmem h0)
        (he ▸ List.mem_cons_of_mem _ (List.mem_cons_self _ _))
  have hna : r.headD 0 ≠ a := by
    by_cases h0 : r.headD 0 = 0
    · rw [h0]; exact fun he => ha0 he.symm
    · exact fun he => har (he ▸ hnmem h0)
  have hnb : r.headD 0 ≠ b := by
    by_cases h0 : r.headD 0 = 0
    · rw [h0]; exact fun he => hb0 he.symm
    · exact fun he => hbr (he ▸ hnmem h0)
  have hppn : l.getLastD 0 ≠ 0 → r.headD 0 ≠ 0 →
      l.getLastD 0 ≠ r.headD 0 := by
    intro h1 h2 he
    exact hdisj (hppmem h1)
      (List.mem_cons_of_mem _ (List.mem_cons_of_mem _ (he ▸ hnmem h2)))
  refine ⟨hab, hppa, hppb, hna, hnb, hppn, ?_⟩
  intro c hc
  cases hc with
  | inl hc =>
      have hcl : c ∈ l := l.dropLast_sublist.subset hc
      have hcx : c ∉ a :: b :: r := hdisj hcl
      have hc0 : c ≠ 0 := seg_ne_zero st p l 0 a hsegl c hcl
      refine ⟨fun he => hcx (he ▸ List.mem_cons_self _ _),
        fun he => hcx (he ▸ List.mem_cons_of_mem _ (List.mem_cons_self _ _)),
        nodup_dropLast_ne_getLastD l hndl 0 c hc, ?_⟩
      by_cases h0 : r.headD 0 = 0
      · rw [h0]; exact hc0
      · exact fun he => hcx (List.mem_cons_of_mem _
          (List.mem_cons_of_mem _ (he ▸ hnmem h0)))
  | inr hc =>
      have hcr : c ∈ r := r.tail_sublist.subset hc
      have hc0 : c ≠ 0 := seg_ne_zero st p r b 0 hsegr c hcr
      refine ⟨fun he => har (he ▸ hcr), fun he => hbr (he ▸ hcr), ?_, ?_⟩
      · by_cases h0 : l.getLastD 0 = 0
        · rw [h0]; exact hc0
        · intro he
          exact hdisj (hppmem h0) (List.mem_cons_of_mem _
            (List.mem_cons_of_mem _ (he ▸ hcr)))
      · cases hr : r with
        | nil => rw [hr] at hc; cases hc
        | cons n2 r2 =>
            subst hr
            rw [List.nodup_cons] at hrnd
            simp only [List.headD_cons]
            simp only [List.tail_cons] at hc
            exact fun he => hrnd.1 (he ▸ hc)

theorem moveDown_swap (st : Store P S) (p : Nat) (l r : List Nat) (a b : Nat)
    (hdll : dllOk st p (l ++ a :: b :: r) = true)
    (hnd : (l ++ a :: b :: r).Nodup) :
    ∃ st4, moveDown st p a = some st4 ∧
      dllOk st4 p (l ++ b :: a :: r) = true := by
  unfold dllOk at hdll
  rw [Bool.and_eq_true] at hdll
  obtain ⟨hheadb, hsegall⟩ := hdll
  have hhead : (getChild st p).getD 0 = (l ++ a :: b :: r).headD 0 :=
    of_decide_eq_true hheadb
  rw [seg_append, Bool.and_eq_true] at hsegall
  obtain ⟨hsegl0, hsegm⟩ := hsegall
  have hsegl : seg st p 0 l a = true := hsegl0
  rw [seg_cons, Bool.and_eq_true, Bool.and_eq_true] at hsegm
  obtain ⟨⟨ha0b, hrtab⟩, hsegm2⟩ := hsegm
  have ha0 : a ≠ 0 := of_decide_eq_true ha0b
  have hrta : getRt st a p = some ⟨p, b, l.getLastD 0⟩ :=
    of_decide_eq_true hrtab
  rw [seg_cons, Bool.and_eq_true, Bool.and_eq_true] at hsegm2
  obtain ⟨⟨hb0b, hrtbb⟩, hsegr0⟩ := hsegm2
  have hb0 : b ≠ 0 := of_decide_eq_true hb0b
  have hrtb : getRt st b p = some ⟨p, r.headD 0, a⟩ :=
    of_decide_eq_true hrtbb
  have hsegr : seg st p b r 0 = true := hsegr0
  obtain ⟨hab, hppa, hppb, hna, hnb, hppn, hcfacts⟩ :=
    swap_facts st p l r a b hsegl hsegr hnd ha0 hb0
  obtain ⟨st1, e1⟩ : ∃ s1, modifyRt st a p
      (fun crt => { crt with prev := b, next := r.headD 0 }) = some s1 :=
    ⟨_, modifyRt_eq _ _ _ _ _ hrta⟩
  have hfr1 : ∀ c q, c ≠ a ∨ q ≠ p → getRt st1 c q = getRt st c q :=
    fun c q hcq => getRt_modifyRt_ne _ _ _ _ c q _ e1 (fun t => rfl) hcq
  have hself1 : getRt st1 a p = some ⟨p, r.headD 0, b⟩ :=
    getRt_modifyRt_self _ _ _ _ _ _ hrta e1 (fun t => rfl)
  have hk1 := modifyRt_keeps _ _ _ _ _ e1
  by_cases hpp0 : l.getLastD 0 = 0
  · -- `a` was the DLL head: LINKS[p] is re-pointed at `b`
    have hlnil : l = [] := lastD_nil_iff st p l a hsegl hpp0
    have hrtb2 : getRt ({ st1 with
        links := (p, b) :: delLinksKey st1.links p } : Store P S) b p =
        some ⟨p, r.headD 0, a⟩ := by
      show getRt st1 b p = _
      rw [hfr1 b p (Or.inl (fun he => hab he.symm))]
      exact hrtb
    obtain ⟨st3, e3⟩ : ∃ s3, modifyRt ({ st1 with
        links := (p, b) :: delLinksKey st1.links p } : Store P S) b p
        (fun nrt => { nrt with prev := l.getLastD 0, next := a }) = some s3 :=
      ⟨_, modifyRt_eq _ _ _ _ _ hrtb2⟩
    have hfr3 : ∀ c q, c ≠ b ∨ q ≠ p → getRt st3 c q = getRt st1 c q := by
      intro c q hcq
      have h := getRt_modifyRt_ne _ _ _ _ c q _ e3 (fun t => rfl) hcq
      exact h
    have hself3 : getRt st3 b p = some ⟨p, a, l.getLastD 0⟩ :=
      getRt_modifyRt_self _ _ _ _ _ _ hrtb2 e3 (fun t => rfl)
    have hk3 := modifyRt_keeps _ _ _ _ _ e3
    have hrta3 : getRt st3 a p = some ⟨p, r.headD 0, b⟩ := by
      rw [hfr3 a p (Or.inl hab)]
      exact hself1
    have hframe3 : ∀ c, c ≠ a → c ≠ b → getRt st3 c p = getRt st c p := by
      intro c hca hcb
      rw [hfr3 c p (Or.inl hcb), hfr1 c p (Or.inl hca)]
    have hhead3 : (getChild st3 p).getD 0 = b := by
      show (linksLookup st3.links p).getD 0 = b
      rw [hk3.1]
      rw [show ({ st1 with links := (p, b) :: delLinksKey st1.links p } :
        Store P S).links = (p, b) :: delLinksKey st1.links p from rfl]
      rw [linksLookup_cons_self]
      rfl
    by_cases hn0 : r.headD 0 = 0
    · -- `b` has no successor
      have hrnil : r = [] := headD_nil_iff st p r b hsegr hn0
      refine ⟨st3, ?_, ?_⟩
      · unfold moveDown
        rw [hrta]
        simp only []
        rw [if_pos (Nat.pos_of_ne_zero hb0)]
        rw [hrtb]
        simp only []
        rw [e1]
        simp only []
        rw [if_neg (by omega : ¬ l.getLastD 0 > 0)]
        simp only []
        rw [e3]
        simp only []
        rw [if_neg (by omega : ¬ r.headD 0 > 0)]
      · apply dll_rebuild st st3 p l r a b hsegl hsegr ha0 hb0
        · intro c hc
          obtain ⟨hca, hcb, _, _⟩ := hcfacts c hc
          exact hframe3 c hca hcb
        · intro hne; exact absurd hlnil hne
        · exact hself3
        · exact hrta3
        · rw [hhead3, hlnil]; rfl
        · intro hne; exact absurd hrnil hne
    · -- fix the predecessor pointer of `b`'s old successor
      have hrne : r ≠ [] := fun he => hn0 (by rw [he]; rfl)
      have hrtn : getRt st (r.headD 0) p = some ⟨p, r.tail.headD 0, b⟩ :=
        seg_head st p r b 0 hsegr hrne
      have hrtn3 : getRt st3 (r.headD 0) p =
          some ⟨p, r.tail.headD 0, b⟩ := by
        rw [hframe3 _ hna hnb]
        exact hrtn
      obtain ⟨st4, e4⟩ : ∃ s4, modifyRt st3 (r.headD 0) p
          (fun nnrt => { nnrt with prev := a }) = some s4 :=
        ⟨_, modifyRt_eq _ _ _ _ _ hrtn3⟩
      have hfr4 : ∀ c q, c ≠ r.headD 0 ∨ q ≠ p →
          getRt st4 c q = getRt st3 c q :=
        fun c q hcq => getRt_modifyRt_ne _ _ _ _ c q _ e4 (fun t => rfl) hcq
      have hself4 : getRt st4 (r.headD 0) p =
          some ⟨p, r.tail.headD 0, a⟩ :=
        getRt_modifyRt_self _ _ _ _ _ _ hrtn3 e4 (fun t => rfl)
      have hk4 := modifyRt_keeps _ _ _ _ _ e4
      refine ⟨st4, ?_, ?_⟩
      · unfold moveDown
        rw [hrta]
        simp only []
        rw [if_pos (Nat.pos_of_ne_zero hb0)]
        rw [hrtb]
        simp only []
        rw [e1]
        simp only []
        rw [if_neg (by omega : ¬ l.getLastD 0 > 0)]
        simp only []
        rw [e3]
        simp only []
        rw [if_pos (Nat.pos_of_ne_zero hn0)]
        exact e4
      · apply dll_rebuild st st4 p l r a b hsegl hsegr ha0 hb0
        · intro c hc
          obtain ⟨hca, hcb, _, hcn⟩ := hcfacts c hc
          rw [hfr4 c p (Or.inl hcn)]
          exact hframe3 c hca hcb
        · intro hne; exact absurd hlnil hne
        · rw [hfr4 b p (Or.inl (fun he => hnb he.symm))]
          exact hself3
        · rw [hfr4 a p (Or.inl (fun he => hna he.symm))]
          exact hrta3
        · show (linksLookup st4.links p).getD 0 = _
          rw [hk4.1]
          rw [show (linksLookup st3.links p).getD 0 = b from hhead3]
          rw [hlnil]
          rfl
        · intro _ t ht
          rw [hrtn] at ht
          injection ht with ht
          subst ht
          exact hself4
  · -- `a` was not the head: fix the predecessor's next pointer
    have hlne : l ≠ [] := fun he => hpp0 (by rw [he]; rfl)
    obtain ⟨pp2, hpprt⟩ := seg_getLast st p l 0 a hsegl hlne
    have hpprt1 : getRt st1 (l.getLastD 0) p = some ⟨p, a, pp2⟩ := by
      rw [hfr1 _ p (Or.inl hppa)]
      exact hpprt
    obtain ⟨st2, e2⟩ : ∃ s2, modifyRt st1 (l.getLastD 0) p
        (fun prt => { prt with next := b }) = some s2 :=
      ⟨_, modifyRt_eq _ _ _ _ _ hpprt1⟩
    have hfr2 : ∀ c q, c ≠ l.getLastD 0 ∨ q ≠ p →
        getRt st2 c q = getRt st1 c q :=
      fun c q hcq => getRt_modifyRt_ne _ _ _ _ c q _ e2 (fun t => rfl) hcq
    have hself2 : getRt st2 (l.getLastD 0) p = some ⟨p, b, pp2⟩ :=
      getRt_modifyRt_self _ _ _ _ _ _ hpprt1 e2 (fun t => rfl)
    have hk2 := modifyRt_keeps _ _ _ _ _ e2
    have hrtb2 : getRt st2 b p = some ⟨p, r.headD 0, a⟩ := by
      rw [hfr2 b p (Or.inl (fun he => hppb he.symm))]
      rw [hfr1 b p (Or.inl (fun he => hab he.symm))]
      exact hrtb
    obtain ⟨st3, e3⟩ : ∃ s3, modifyRt st2 b p
        (fun nrt => { nrt with prev := l.getLastD 0, next := a }) = some s3 :=
      ⟨_, modifyRt_eq _ _ _ _ _ hrtb2⟩
    have hfr3 : ∀ c q, c ≠ b ∨ q ≠ p → getRt st3 c q = getRt st2 c q :=
      fun c q hcq => getRt_modifyRt_ne _ _ _ _ c q _ e3 (fun t => rfl) hcq
    have hself3 : getRt st3 b p = some ⟨p, a, l.getLastD 0⟩ :=
      getRt_modifyRt_self _ _ _ _ _ _ hrtb2 e3 (fun t => rfl)
    have hk3 := modifyRt_keeps _ _ _ _ _ e3
    have hrta3 : getRt st3 a p = some ⟨p, r.headD 0, b⟩ := by
      rw [hfr3 a p (Or.inl hab)]
      rw [hfr2 a p (Or.inl (fun he => hppa he.symm))]
      exact hself1
    have hpp3 : getRt st3 (l.getLastD 0) p = some ⟨p, b, pp2⟩ := by
      rw [hfr3 _ p (Or.inl hppb)]
      exact hself2
    have hframe3 : ∀ c, c ≠ a → c ≠ b → c ≠ l.getLastD 0 →
        getRt st3 c p = getRt st c p := by
      intro c hca hcb hcpp
      rw [hfr3 c p (Or.inl hcb), hfr2 c p (Or.inl hcpp),
          hfr1 c p (Or.inl hca)]
    have hlinks3 : st3.links = st.links := by
      rw [hk3.1, hk2.1, hk1.1]
    have hhead3 : (getChild st3 p).getD 0 = (l ++ b :: a :: r).headD 0 := by
      show (linksLookup st3.links p).getD 0 = _
      rw [hlinks3]
      rw [show (linksLookup st.links p).getD 0 = (getChild st p).getD 0
        from rfl, hhead]
      rw [headD_append_ne_nil l _ 0 hlne, headD_append_ne_nil l _ 0 hlne]
    by_cases hn0 : r.headD 0 = 0
    · have hrnil : r = [] := headD_nil_iff st p r b hsegr hn0
      refine ⟨st3, ?_, ?_⟩
      · unfold moveDown
        rw [hrta]
        simp only []
        rw [if_pos (Nat.pos_of_ne_zero hb0)]
        rw [hrtb]
        simp only []
        rw [e1]
        simp only []
        rw [if_pos (Nat.pos_of_ne_zero hpp0)]
        rw [e2]
        simp only []
        rw [e3]
        simp only []
        rw [if_neg (by omega : ¬ r.headD 0 > 0)]
      · apply dll_rebuild st st3 p l r a b hsegl hsegr ha0 hb0
        · intro c hc
          obtain ⟨hca, hcb, hcpp, _⟩ := hcfacts c hc
          exact hframe3 c hca hcb hcpp
        · intro _ t ht
          rw [hpprt] at ht
          injection ht with ht
          subst ht
          exact hpp3
        · exact hself3
        · exact hrta3
        · exact hhead3
        · intro hne; exact absurd hrnil hne
    · have hrne : r ≠ [] := fun he => hn0 (by rw [he]; rfl)
      have hrtn : getRt st (r.headD 0) p = some ⟨p, r.tail.headD 0, b⟩ :=
        seg_head st p r b 0 hsegr hrne
      have hrtn3 : getRt st3 (r.headD 0) p =
          some ⟨p, r.tail.headD 0, b⟩ := by
        rw [hframe3 _ hna hnb (fun he => (hppn hpp0 hn0) he.symm)]
        exact hrtn
      obtain ⟨st4, e4⟩ : ∃ s4, modifyRt st3 (r.headD 0) p
          (fun nnrt => { nnrt with prev := a }) = some s4 :=
        ⟨_, modifyRt_eq _ _ _ _ _ hrtn3⟩
      have hfr4 : ∀ c q, c ≠ r.headD 0 ∨ q ≠ p →
          getRt st4 c q = getRt st3 c q :=
        fun c q hcq => getRt_modifyRt_ne _ _ _ _ c q _ e4 (fun t => rfl) hcq
      have hself4 : getRt st4 (r.headD 0) p =
          some ⟨p, r.tail.headD 0, a⟩ :=
        getRt_modifyRt_self _ _ _ _ _ _ hrtn3 e4 (fun t => rfl)
      have hk4 := modifyRt_keeps _ _ _ _ _ e4
      refine ⟨st4, ?_, ?_⟩
      · unfold moveDown
        rw [hrta]
        simp only []
        rw [if_pos (Nat.pos_of_ne_zero hb0)]
        rw [hrtb]
        simp only []
        rw [e1]
        simp only []
        rw [if_pos (Nat.pos_of_ne_zero hpp0)]
        rw [e2]
        simp only []
        rw [e3]
        simp only []
        rw [if_pos (Nat.pos_of_ne_zero hn0)]
        exact e4
      · apply dll_rebuild st st4 p l r a b hsegl hsegr ha0 hb0
        · intro c hc
          obtain ⟨hca, hcb, hcpp, hcn⟩ := hcfacts c hc
          rw [hfr4 c p (Or.inl hcn)]
          exact hframe3 c hca hcb hcpp
        · intro _ t ht
          rw [hpprt] at ht
          injection ht with ht
          subst ht
          rw [hfr4 _ p (Or.inl (fun he => (hppn hpp0 hn0) he))]
          exact hpp3
        · rw [hfr4 b p (Or.inl (fun he => hnb he.symm))]
          exact hself3
        · rw [hfr4 a p (Or.inl (fun he => hna he.symm))]
          exact hrta3
        · show (linksLookup st4.links p).getD 0 = _
          rw [hk4.1]
          exact hhead3
        · intro _ t ht
          rw [hrtn] at ht
          injection ht with ht
          subst ht
          exact hself4

theorem moveUp_swap (st : Store P S) (p : Nat) (l r : List Nat) (a b : Nat)
    (hdll : dllOk st p (l ++ a :: b :: r) = true)
    (hnd : (l ++ a :: b :: r).Nodup) :
    ∃ st4, moveUp st p b = some st4 ∧
      dllOk st4 p (l ++ b :: a :: r) = true := by
  unfold dllOk at hdll
  rw [Bool.and_eq_true] at hdll
  obtain ⟨hheadb, hsegall⟩ := hdll
  have hhead : (getChild st p).getD 0 = (l ++ a :: b :: r).headD 0 :=
    of_decide_eq_true hheadb
  rw [seg_append, Bool.and_eq_true] at hsegall
  obtain ⟨hsegl0, hsegm⟩ := hsegall
  have hsegl : seg st p 0 l a = true := hsegl0
  rw [seg_cons, Bool.and_eq_true, Bool.and_eq_true] at hsegm
  obtain ⟨⟨ha0b, hrtab⟩, hsegm2⟩ := hsegm
  have ha0 : a ≠ 0 := of_decide_eq_true ha0b
  have hrta : getRt st a p = some ⟨p, b, l.getLastD 0⟩ :=
    of_decide_eq_true hrtab
  rw [seg_cons, Bool.and_eq_true, Bool.and_eq_true] at hsegm2
  obtain ⟨⟨hb0b, hrtbb⟩, hsegr0⟩ := hsegm2
  have hb0 : b ≠ 0 := of_decide_eq_true hb0b
  have hrtb : getRt st b p = some ⟨p, r.headD 0, a⟩ :=
    of_decide_eq_true hrtbb
  have hsegr : seg st p b r 0 = true := hsegr0
  obtain ⟨hab, hppa, hppb, hna, hnb, hppn, hcfacts⟩ :=
    swap_facts st p l r a b hsegl hsegr hnd ha0 hb0
  obtain ⟨st1, e1⟩ : ∃ s1, modifyRt st b p
      (fun crt => { crt with next := a, prev := l.getLastD 0 }) = some s1 :=
    ⟨_, modifyRt_eq _ _ _ _ _ hrtb⟩
  have hfr1 : ∀ c q, c ≠ b ∨ q ≠ p → getRt st1 c q = getRt st c q :=
    fun c q hcq => getRt_modifyRt_ne _ _ _ _ c q _ e1 (fun t => rfl) hcq
  have hself1 : getRt st1 b p = some ⟨p, a, l.getLastD 0⟩ :=
    getRt_modifyRt_self _ _ _ _ _ _ hrtb e1 (fun t => rfl)
  have hk1 := modifyRt_keeps _ _ _ _ _ e1
  by_cases hn0 : r.headD 0 = 0
  · -- `b` has no successor; no successor fix-up happens
    have hrnil : r = [] := headD_nil_iff st p r b hsegr hn0
    have hrta1 : getRt st1 a p = some ⟨p, b, l.getLastD 0⟩ := by
      rw [hfr1 a p (Or.inl hab)]
      exact hrta
    obtain ⟨st3, e3⟩ : ∃ s3, modifyRt st1 a p
        (fun prt => { prt with next := r.headD 0, prev := b }) = some s3 :=
      ⟨_, modifyRt_eq _ _ _ _ _ hrta1⟩
    have hfr3 : ∀ c q, c ≠ a ∨ q ≠ p → getRt st3 c q = getRt st1 c q :=
      fun c q hcq => getRt_modifyRt_ne _ _ _ _ c q _ e3 (fun t => rfl) hcq
    have hself3 : getRt st3 a p = some ⟨p, r.headD 0, b⟩ :=
      getRt_modifyRt_self _ _ _ _ _ _ hrta1 e3 (fun t => rfl)
    have hk3 := modifyRt_keeps _ _ _ _ _ e3
    have hrtb3 : getRt st3 b p = some ⟨p, a, l.getLastD 0⟩ := by
      rw [hfr3 b p (Or.inl (fun he => hab he.symm))]
      exact hself1
    have hframe3 : ∀ c, c ≠ b → c ≠ a → getRt st3 c p = getRt st c p := by
      intro c hcb hca
      rw [hfr3 c p (Or.inl hca), hfr1 c p (Or.inl hcb)]
    by_cases hpp0 : l.getLastD 0 = 0
    · -- `a` was the head: LINKS[p] is re-pointed at `b`
      have hlnil : l = [] := lastD_nil_iff st p l a hsegl hpp0
      refine ⟨{ st3 with links := (p, b) :: delLinksKey st3.links p }, ?_, ?_⟩
      · unfold moveUp
        rw [hrtb]
        simp only []
        rw [if_pos (Nat.pos_of_ne_zero ha0)]
        rw [hrta]
        simp only []
        rw [e1]
        simp only []
        rw [if_neg (by omega : ¬ r.headD 0 > 0)]
        simp only []
        rw [e3]
        simp only []
        rw [if_neg (by omega : ¬ l.getLastD 0 > 0)]
      · apply dll_rebuild st _ p l r a b hsegl hsegr ha0 hb0
        · intro c hc
          obtain ⟨hca, hcb, _, _⟩ := hcfacts c hc
          exact hframe3 c hcb hca
        · intro hne; exact absurd hlnil hne
        · exact hrtb3
        · exact hself3
        · show (linksLookup ((p, b) :: delLinksKey st3.links p) p).getD 0 = _
          rw [linksLookup_cons_self]
          rw [hlnil]
          rfl
        · intro hne; exact absurd hrnil hne
    · -- fix the next pointer of `a`'s predecessor
      have hlne : l ≠ [] := fun he => hpp0 (by rw [he]; rfl)
      obtain ⟨pp2, hpprt⟩ := seg_getLast st p l 0 a hsegl hlne
      have hpprt3 : getRt st3 (l.getLastD 0) p = some ⟨p, a, pp2⟩ := by
        rw [hframe3 _ hppb hppa]
        exact hpprt
      obtain ⟨st4, e4⟩ : ∃ s4, modifyRt st3 (l.getLastD 0) p
          (fun pprt => { pprt with next := b }) = some s4 :=
        ⟨_, modifyRt_eq _ _ _ _ _ hpprt3⟩
      have hfr4 : ∀ c q, c ≠ l.getLastD 0 ∨ q ≠ p →
          getRt st4 c q = getRt st3 c q :=
        fun c q hcq => getRt_modifyRt_ne _ _ _ _ c q _ e4 (fun t => rfl) hcq
      have hself4 : getRt st4 (l.getLastD 0) p = some ⟨p, b, pp2⟩ :=
        getRt_modifyRt_self _ _ _ _ _ _ hpprt3 e4 (fun t => rfl)
      have hk4 := modifyRt_keeps _ _ _ _ _ e4
      refine ⟨st4, ?_, ?_⟩
      · unfold moveUp
        rw [hrtb]
        simp only []
        rw [if_pos (Nat.pos_of_ne_zero ha0)]
        rw [hrta]
        simp only []
        rw [e1]
        simp only []
        rw [if_neg (by omega : ¬ r.headD 0 > 0)]
        simp only []
        rw [e3]
        simp only []
        rw [if_pos (Nat.pos_of_ne_zero hpp0)]
        exact e4
      · apply dll_rebuild st st4 p l r a b hsegl hsegr ha0 hb0
        · intro c hc
          obtain ⟨hca, hcb, hcpp, _⟩ := hcfacts c hc
          rw [hfr4 c p (Or.inl hcpp)]
          exact hframe3 c hcb hca
        · intro _ t ht
          rw [hpprt] at ht
          injection ht with ht
          subst ht
          exact hself4
        · rw [hfr4 b p (Or.inl (fun he => hppb he.symm))]
          exact hrtb3
        · rw [hfr4 a p (Or.inl (fun he => hppa he.symm))]
          exact hself3
        · show (linksLookup st4.links p).getD 0 = _
          rw [hk4.1, hk3.1, hk1.1]
          rw [show (linksLookup st.links p).getD 0 = (getChild st p).getD 0
            from rfl, hhead]
          rw [headD_append_ne_nil l _ 0 hlne, headD_append_ne_nil l _ 0 hlne]
        · intro hne; exact absurd hrnil hne
  · -- fix the predecessor pointer of `b`'s successor, then swap
    have hrne : r ≠ [] := fun he => hn0 (by rw [he]; rfl)
    have hrtn : getRt st (r.headD 0) p = some ⟨p, r.tail.headD 0, b⟩ :=
      seg_head st p r b 0 hsegr hrne
    have hrtn1 : getRt st1 (r.headD 0) p = some ⟨p, r.tail.headD 0, b⟩ := by
      rw [hfr1 _ p (Or.inl hnb)]
      exact hrtn
    obtain ⟨st2, e2⟩ : ∃ s2, modifyRt st1 (r.headD 0) p
        (fun nrt => { nrt with prev := a }) = some s2 :=
      ⟨_, modifyRt_eq _ _ _ _ _ hrtn1⟩
    have hfr2 : ∀ c q, c ≠ r.headD 0 ∨ q ≠ p →
        getRt st2 c q = getRt st1 c q :=
      fun c q hcq => getRt_modifyRt_ne _ _ _ _ c q _ e2 (fun t => rfl) hcq
    have hself2 : getRt st2 (r.headD 0) p = some ⟨p, r.tail.headD 0, a⟩ :=
      getRt_modifyRt_self _ _ _ _ _ _ hrtn1 e2 (fun t => rfl)
    have hk2 := modifyRt_keeps _ _ _ _ _ e2
    have hrta2 : getRt st2 a p = some ⟨p, b, l.getLastD 0⟩ := by
      rw [hfr2 a p (Or.inl (fun he => hna he.symm))]
      rw [hfr1 a p (Or.inl hab)]
      exact hrta
    obtain ⟨st3, e3⟩ : ∃ s3, modifyRt st2 a p
        (fun prt => { prt with next := r.headD 0, prev := b }) = some s3 :=
      ⟨_, modifyRt_eq _ _ _ _ _ hrta2⟩
    have hfr3 : ∀ c q, c ≠ a ∨ q ≠ p → getRt st3 c q = getRt st2 c q :=
      fun c q hcq => getRt_modifyRt_ne _ _ _ _ c q _ e3 (fun t => rfl) hcq
    have hself3 : getRt st3 a p = some ⟨p, r.headD 0, b⟩ :=
      getRt_modifyRt_self _ _ _ _ _ _ hrta2 e3 (fun t => rfl)
    have hk3 := modifyRt_keeps _ _ _ _ _ e3
    have hrtb3 : getRt st3 b p = some ⟨p, a, l.getLastD 0⟩ := by
      rw [hfr3 b p (Or.inl (fun he => hab he.symm))]
      rw [hfr2 b p (Or.inl (fun he => hnb he.symm))]
      exact hself1
    have hn3 : getRt st3 (r.headD 0) p = some ⟨p, r.tail.headD 0, a⟩ := by
      rw [hfr3 _ p (Or.inl hna)]
      exact hself2
    have hframe3 : ∀ c, c ≠ b → c ≠ r.headD 0 → c ≠ a →
        getRt st3 c p = getRt st c p := by
      intro c hcb hcn hca
      rw [hfr3 c p (Or.inl hca), hfr2 c p (Or.inl hcn),
          hfr1 c p (Or.inl hcb)]
    by_cases hpp0 : l.getLastD 0 = 0
    · have hlnil : l = [] := lastD_nil_iff st p l a hsegl hpp0
      refine ⟨{ st3 with links := (p, b) :: delLinksKey st3.links p }, ?_, ?_⟩
      · unfold moveUp
        rw [hrtb]
        simp only []
        rw [if_pos (Nat.pos_of_ne_zero ha0)]
        rw [hrta]
        simp only []
        rw [e1]
        simp only []
        rw [if_pos (Nat.pos_of_ne_zero hn0)]
        rw [e2]
        simp only []
        rw [e3]
        simp only []
        rw [if_neg (by omega : ¬ l.getLastD 0 > 0)]
      · apply dll_rebuild st _ p l r a b hsegl hsegr ha0 hb0
        · intro c hc
          obtain ⟨hca, hcb, _, hcn⟩ := hcfacts c hc
          exact hframe3 c hcb hcn hca
        · intro hne; exact absurd hlnil hne
        · exact hrtb3
        · exact hself3
        · show (linksLookup ((p, b) :: delLinksKey st3.links p) p).getD 0 = _
          rw [linksLookup_cons_self]
          rw [hlnil]
          rfl
        · intro _ t ht
          rw [hrtn] at ht
          injection ht with ht
          subst ht
          exact hn3
    · have hlne : l ≠ [] := fun he => hpp0 (by rw [he]; rfl)
      obtain ⟨pp2, hpprt⟩ := seg_getLast st p l 0 a hsegl hlne
      have hpprt3 : getRt st3 (l.getLastD 0) p = some ⟨p, a, pp2⟩ := by
        rw [hframe3 _ hppb (hppn hpp0 hn0) hppa]
        exact hpprt
      obtain ⟨st4, e4⟩ : ∃ s4, modifyRt st3 (l.getLastD 0) p
          (fun pprt => { pprt with next := b }) = some s4 :=
        ⟨_, modifyRt_eq _ _ _ _ _ hpprt3⟩
      have hfr4 : ∀ c q, c ≠ l.getLastD 0 ∨ q ≠ p →
          getRt st4 c q = getRt st3 c q :=
        fun c q hcq => getRt_modifyRt_ne _ _ _ _ c q _ e4 (fun t => rfl) hcq
      have hself4 : getRt st4 (l.getLastD 0) p = some ⟨p, b, pp2⟩ :=
        getRt_modifyRt_self _ _ _ _ _ _ hpprt3 e4 (fun t => rfl)
      have hk4 := modifyRt_keeps _ _ _ _ _ e4
      refine ⟨st4, ?_, ?_⟩
      · unfold moveUp
        rw [hrtb]
        simp only []
        rw [if_pos (Nat.pos_of_ne_zero ha0)]
        rw [hrta]
        simp only []
        rw [e1]
        simp only []
        rw [if_pos (Nat.pos_of_ne_zero hn0)]
        rw [e2]
        simp only []
        rw [e3]
        simp only []
        rw [if_pos (Nat.pos_of_ne_zero hpp0)]
        exact e4
      · apply dll_rebuild st st4 p l r a b hsegl hsegr ha0 hb0
        · intro c hc
          obtain ⟨hca, hcb, hcpp, hcn⟩ := hcfacts c hc
          rw [hfr4 c p (Or.inl hcpp)]
          exact hframe3 c hcb hcn hca
        · intro _ t ht
          rw [hpprt] at ht
          injection ht with ht
          subst ht
          exact hself4
        · rw [hfr4 b p (Or.inl (fun he => hppb he.symm))]
          exact hrtb3
        · rw [hfr4 a p (Or.inl (fun he => hppa he.symm))]
          exact hself3
        · show (linksLookup st4.links p).getD 0 = _
          rw [hk4.1, hk3.1, hk2.1, hk1.1]
          rw [show (linksLookup st.links p).getD 0 = (getChild st p).getD 0
            from rfl, hhead]
          rw [headD_append_ne_nil l _ 0 hlne, headD_append_ne_nil l _ 0 hlne]
        · intro _ t ht
          rw [hrtn] at ht
          injection ht with ht
          subst ht
          rw [hfr4 _ p (Or.inl (fun he => (hppn hpp0 hn0) he.symm))]
          exact hn3

/-- C6: for every parent whose sibling DLL satisfies the invariants,
`move_up(p, id)` followed by `move_down(p, id)` restores the previous
sibling order whenever `id` has a predecessor; at the boundary (head for
`move_up`, tail for `move_down`) the operation succeeds and changes
nothing.  Concretely, with children in DLL order `[3, 2, 1]` under 0,
`move_down(0, 3)` yields `[2, 3, 1]`, a second `move_down(0, 3)` yields
`[2, 1, 3]`, `move_up(0, 3)` returns to `[2, 3, 1]`, and `move_up(0, 3)`
on the original store is a no-op. -/
theorem C6_move_round_trip (st : Store P S) (p : Nat) (l r : List Nat)
    (x y : Nat)
    (hdll : dllOk st p (l ++ x :: y :: r) = true)
    (hnd : (l ++ x :: y :: r).Nodup) :
    (∃ st1 st2, moveUp st p y = some st1 ∧ moveDown st1 p y = some st2 ∧
      childIds ((l ++ x :: y :: r).length + 1) st2 p =
        some (l ++ x :: y :: r)) ∧
    (l = [] → moveUp st p x = some st) ∧
    (r = [] → moveDown st p y = some st) ∧
    ((stThree.bind (fun s => moveDown s 0 3)).bind
        (fun s => childIds 4 s 0) = some [2, 3, 1] ∧
      ((stThree.bind (fun s => moveDown s 0 3)).bind
        (fun s => moveDown s 0 3)).bind
        (fun s => childIds 4 s 0) = some [2, 1, 3] ∧
      (((stThree.bind (fun s => moveDown s 0 3)).bind
        (fun s => moveDown s 0 3)).bind (fun s => moveUp s 0 3)).bind
        (fun s => childIds 4 s 0) = some [2, 3, 1] ∧
      stThree.bind (fun s => moveUp s 0 3) = stThree) := by
  refine ⟨?_, ?_, ?_, by decide⟩
  · obtain ⟨st1, hu, hd1⟩ := moveUp_swap st p l r x y hdll hnd
    have hperm : (l ++ x :: y :: r).Perm (l ++ y :: x :: r) :=
      List.Perm.append_left l (List.Perm.swap x y r).symm
    have hnd1 : (l ++ y :: x :: r).Nodup := hperm.nodup hnd
    obtain ⟨st2, hd, hd2⟩ := moveDown_swap st1 p l r y x hd1 hnd1
    exact ⟨st1, st2, hu, hd, dllOk_childIds st2 p _ hd2⟩
  · intro he
    subst he
    have hdll' : dllOk st p (x :: y :: r) = true := hdll
    unfold dllOk at hdll'
    rw [Bool.and_eq_true] at hdll'
    obtain ⟨-, hseg⟩ := hdll'
    rw [seg_cons, Bool.and_eq_true, Bool.and_eq_true] at hseg
    obtain ⟨⟨-, hrtxb⟩, -⟩ := hseg
    have hrtx : getRt st x p = some ⟨p, y, 0⟩ := of_decide_eq_true hrtxb
    unfold moveUp
    rw [hrtx]
    simp only []
    rw [if_neg (by omega : ¬ (0 : Nat) > 0)]
  · intro he
    subst he
    unfold dllOk at hdll
    rw [Bool.and_eq_true] at hdll
    obtain ⟨-, hsegall⟩ := hdll
    rw [seg_append, Bool.and_eq_true] at hsegall
    obtain ⟨-, hsegm⟩ := hsegall
    rw [seg_cons, Bool.and_eq_true, Bool.and_eq_true] at hsegm
    obtain ⟨-, hsegm2⟩ := hsegm
    rw [seg_cons, Bool.and_eq_true, Bool.and_eq_true] at hsegm2
    obtain ⟨⟨-, hrtyb⟩, -⟩ := hsegm2
    have hrty : getRt st y p = some ⟨p, 0, x⟩ :=
      of_decide_eq_true hrtyb
    unfold moveDown
    rw [hrty]
    simp only []
    rw [if_neg (by omega : ¬ (0 : Nat) > 0)]

theorem C1_share_refusal_witness :
    ((false = false) ↔
      (isDesc 9 (stChain.getD (createBase 0)) 2 1 = some true ∨
        (getRt (stChain.getD (createBase 0)) 1 2).isSome)) ∧
    (false = false →
      stChain.getD (createBase 0) = stChain.getD (createBase 0)) :=
  C1_share_refusal.1 Nat Nat 9 (stChain.getD (createBase 0)) 1 2 false
    (stChain.getD (createBase 0)) (by decide)

theorem C2_delete_refcount_witness :
    readNode ((delete 9 (stShared.getD (createBase 0)) 0 1).getD
      (createBase 0)) 1 = none :=
  C2_delete_refcount.2.1 Nat Nat 9 (stShared.getD (createBase 0)) 0 1
    ((delete 9 (stShared.getD (createBase 0)) 0 1).getD (createBase 0))
    (by decide) (by decide) (by decide) (by decide)

theorem C4_addChild_head_insert_witness :
    getChild ((addChild (createBase "/" : Store String Nat) 0 "one").getD
      (0, createBase "/")).2 0 = some 1 :=
  (C4_addChild_head_insert.1 String Nat (createBase "/") 0 "one" 1
    ((addChild (createBase "/" : Store String Nat) 0 "one").getD
      (0, createBase "/")).2 (by decide) (by decide)).2.2.1

theorem C5_delete_never_touches_sessions_witness :
    ((delete 9 (stSession.getD (createBase 0)) 0 1).getD
        (createBase 0)).sessions = (stSession.getD (createBase 0)).sessions ∧
    ((delete 9 (stSession.getD (createBase 0)) 0 1).getD
        (createBase 0)).rsessions =
      (stSession.getD (createBase 0)).rsessions :=
  C5_delete_never_touches_sessions Nat Nat 9 (stSession.getD (createBase 0))
    0 1 ((delete 9 (stSession.getD (createBase 0)) 0 1).getD (createBase 0))
    (by decide)

theorem C6_move_round_trip_witness :
    moveUp (stThree.getD (createBase 0)) 0 3 =
      some (stThree.getD (createBase 0)) :=
  (C6_move_round_trip (stThree.getD (createBase 0)) 0 [] [1] 3 2
    (by decide) (by decide)).2.1 rfl

theorem C7_flattree_height_bound_witness :
    buildFlattree 9 (fun _ : Nat => some ⟨"abcdef".toList⟩)
      (createBase 0 : Store Nat Nat) 0 0 2 = some [] :=
  C7_flattree_height_bound.2 Nat Nat 9 (fun _ => some ⟨"abcdef".toList⟩)
    (createBase 0) 0 0 2 0 ⟨"abcdef".toList⟩ (by decide) (by decide) rfl
    (by decide)

theorem C9_wrap_edge_cases_witness : wrapText [] 5 = [0] :=
  C9_wrap_edge_cases.2.1 5 (by decide)

theorem C10_modify_inserts_silently_witness :
    readNode (modifyNode (createBase 0 : Store Nat Nat) 5 77) 6 =
      readNode (createBase 0 : Store Nat Nat) 6 :=
  C10_modify_inserts_silently.2.1 Nat Nat (createBase 0) 5 77 6 (by decide)
